import Mathlib

/-!
Verification of the network builder engine of
`src/services/networkBuilder.ts` (class `NetworkBuilder`) against its
specification.  The TypeScript code is shallowly embedded: JavaScript
values that matter to the engine (strings, integral numbers, `null`,
`undefined`, numeric vectors) are modelled by `JsVal`; a JS `Set` is an
insertion-ordered duplicate-free list; a JS `Map` is an insertion-ordered
association list whose `set` overwrites in place; JS `Array.prototype.sort`
(stable, as the language requires) is a stable insertion sort.  JS numbers
are modelled as exact integers (the data carries small integral values);
the colour interpolation, exact on the rationals it produces, is carried
out in integer arithmetic with an explicit floor division.
-/

namespace NetworkExplorer

/-- Model of the JavaScript values stored in node attribute fields:
`undefined`, `null`, strings, (integral) numbers, numeric vectors. -/
inductive JsVal where
  | undef
  | nullv
  | str (s : String)
  | num (n : Int)
  | numList (l : List Int)
deriving DecidableEq

/-- JS truthiness for `JsVal` (`""`, `0`, `null`, `undefined` are falsy;
arrays are objects, hence truthy). -/
def JsVal.truthy : JsVal → Bool
  | .undef => false
  | .nullv => false
  | .str s => !s.isEmpty
  | .num n => n != 0
  | .numList _ => true

/-- JS operator `a || b`. -/
def jsOr (a b : JsVal) : JsVal := if a.truthy then a else b

/-- JS `String(v)` (for the values representable in the model). -/
def JsVal.toStr : JsVal → String
  | .undef => "undefined"
  | .nullv => "null"
  | .str s => s
  | .num n => toString n
  | .numList l => String.intercalate "," (l.map toString)

/-- Add an element to a JS `Set` modelled as an insertion-ordered
duplicate-free list. -/
def insertNew (l : List String) (x : String) : List String :=
  if x ∈ l then l else l ++ [x]

/-- Model of `new Set(l)` for a list of strings. -/
def jsSetOf (l : List String) : List String :=
  l.foldl insertNew []

/-- First-match lookup in a JS `Map` modelled as an association list
(keys are unique by construction). -/
def mapGet {α : Type} : List (String × α) → String → Option α
  | [], _ => none
  | p :: m, k => if p.1 = k then some p.2 else mapGet m k

/-- JS `Map.prototype.has`. -/
def mapHasKey {α : Type} (m : List (String × α)) (k : String) : Bool :=
  (mapGet m k).isSome

/-- JS `Map.prototype.set`: overwrite in place if the key is present,
append otherwise. -/
def jsMapSet {α : Type} (m : List (String × α)) (k : String) (v : α) :
    List (String × α) :=
  if mapHasKey m k then m.map (fun p => if p.1 = k then (k, v) else p)
  else m ++ [(k, v)]

/-- JS `toLowerCase` (ASCII range; the graph data is ASCII), implemented
by structural recursion over the character list so that it evaluates
inside the kernel. -/
def toLowerStr (s : String) : String :=
  String.mk (s.toList.map Char.toLower)

/-- The whitespace characters trimmed by JS `trim` that occur in the data. -/
def isWSp (c : Char) : Bool :=
  c = ' ' ∨ c = '\t' ∨ c = '\n' ∨ c = '\r'

/-- JS `trim`, implemented by structural recursion. -/
def trimStr (s : String) : String :=
  String.mk (((s.toList.dropWhile isWSp).reverse.dropWhile isWSp).reverse)

/-- Does `hay` start with `needle` (character lists)? -/
def startsWithL : List Char → List Char → Bool
  | _, [] => true
  | [], _ :: _ => false
  | a :: as, b :: bs => (a = b) && startsWithL as bs

/-- Substring containment on character lists. -/
def containsSubL : List Char → List Char → Bool
  | [], needle => needle.isEmpty
  | a :: t, needle => startsWithL (a :: t) needle || containsSubL t needle

/-- JS `hay.includes(needle)` for strings. -/
def strIncludes (hay needle : String) : Bool :=
  containsSubL hay.toList needle.toList

/-- Hexadecimal digit value. -/
def hexVal (c : Char) : Option Nat :=
  if '0' ≤ c ∧ c ≤ '9' then some (c.toNat - '0'.toNat)
  else if 'a' ≤ c ∧ c ≤ 'f' then some (c.toNat - 'a'.toNat + 10)
  else if 'A' ≤ c ∧ c ≤ 'F' then some (c.toNat - 'A'.toNat + 10)
  else none

/-- Decimal digit value. -/
def decVal (c : Char) : Option Nat :=
  if '0' ≤ c ∧ c ≤ '9' then some (c.toNat - '0'.toNat) else none

/-- Accumulate the longest digit run (used by the `parseInt` model). -/
def parseLoop (f : Char → Option Nat) (b : Nat) : List Char → Nat → Nat
  | [], acc => acc
  | c :: cs, acc =>
    match f c with
    | some d => parseLoop f b cs (acc * b + d)
    | none => acc

/-- JS `parseInt(s)` (no radix argument): trim, optional sign, optional
`0x`/`0X` hex marker, then the longest run of digits; `none` models `NaN`. -/
def jsParseInt (s : String) : Option Int :=
  let cs := (trimStr s).toList
  let signed : Int × List Char :=
    match cs with
    | '-' :: r => (-1, r)
    | '+' :: r => (1, r)
    | r => (1, r)
  let based : Nat × List Char :=
    match signed.2 with
    | '0' :: 'x' :: r => (16, r)
    | '0' :: 'X' :: r => (16, r)
    | r => (10, r)
  let dig : Char → Option Nat := if based.1 = 16 then hexVal else decVal
  match based.2 with
  | [] => none
  | c :: _ =>
    match dig c with
    | none => none
    | some _ => some (signed.1 * (parseLoop dig based.1 based.2 0 : Int))

/-- Stable descending insertion by an integer key: the new element goes
after every already-placed element with a greater-or-equal key.  This is
the unique result mandated for JS `sort((a, b) => key b - key a)`. -/
def insDesc {α : Type} (key : α → Int) : List α → α → List α
  | [], x => [x]
  | y :: ys, x => if key x ≤ key y then y :: insDesc key ys x else x :: y :: ys

/-- Stable descending sort by an integer key. -/
def sortDesc {α : Type} (key : α → Int) (l : List α) : List α :=
  l.foldl (insDesc key) []

/-- Model of `GraphNode` of `src/types.ts`: identity fields, the `properties` bag
(an ordered string-keyed object), legacy top-level mirrors, and the
runtime-only display outputs `val`/`totalVal`/`color`/`baseColor` that
`buildNetwork` writes. -/
structure GraphNode where
  id : String
  name : String
  node_type : String
  properties : Option (List (String × JsVal)) := none
  text : JsVal := .undef
  section_text : JsVal := .undef
  index_heading : JsVal := .undef
  full_name : JsVal := .undef
  display_label : JsVal := .undef
  section_heading : JsVal := .undef
  section_num : JsVal := .undef
  title_num : JsVal := .undef
  title : JsVal := .undef
  extra : List (String × JsVal) := []
  val : JsVal := .undef
  totalVal : JsVal := .undef
  color : JsVal := .undef
  baseColor : JsVal := .undef
deriving DecidableEq

/-- Model of `GraphLink` of `src/types.ts`.  The code normalises `link.source` /
`link.target` to an id string on every use (`typeof link.source ===
'string' ? link.source : link.source.id`), so endpoints are modelled as
the id strings directly. -/
structure GraphLink where
  source : String
  target : String
  edge_type : String
  action : String := ""
deriving DecidableEq

/-- Model of `FilteredGraph` of `src/types.ts`. -/
structure FilteredGraph where
  nodes : List GraphNode
  links : List GraphLink
  truncated : Bool
  matchedCount : Nat
deriving DecidableEq

/-- Search logic switch (`'AND' | 'OR'`). -/
inductive SearchLogic where
  | AND
  | OR
deriving DecidableEq

/-- Node ranking switch (`'global' | 'subgraph'`). -/
inductive RankingMode where
  | global
  | subgraph
deriving DecidableEq

/-- Model of `NetworkBuilderState` of `src/types.ts`.  `expansionDepth`,
`maxNodesPerExpansion` and `maxTotalNodes` are declared as non-negative
integral counts (the spec calls `maxTotalNodes` a positive integer cap),
so they are modelled as `Nat`. -/
structure NetworkBuilderState where
  searchTerms : List String
  searchFields : List String
  allowedNodeTypes : List String
  allowedEdgeTypes : List String
  allowedTitles : List Int
  allowedSections : List String
  seedNodeIds : List String
  expansionDepth : Nat
  maxNodesPerExpansion : Nat
  maxTotalNodes : Nat
deriving DecidableEq

/-- The engine instance: the immutable node and link lists supplied at
construction (`constructor(nodes, links)`). -/
structure NetworkBuilder where
  allNodes : List GraphNode
  allLinks : List GraphLink
deriving DecidableEq

/-- Adjacency entries of one link for a given node id, in the push order
of the constructor (source-side entry first, then target-side). -/
def adjEntries (id : String) (l : GraphLink) : List (String × String) :=
  (if l.source = id then [(l.target, l.edge_type)] else []) ++
  (if l.target = id then [(l.source, l.edge_type)] else [])

/-- Model of `this.adjacencyMap.get(id) || []`: the ordered neighbour list that the
constructor builds by pushing both directions of every link.  A node id
that never occurs as an endpoint gets the empty list. -/
def adjacency (links : List GraphLink) (id : String) : List (String × String) :=
  links.foldr (fun l acc => adjEntries id l ++ acc) []

/-- The key set of `this.adjacencyMap`: every endpoint id of every link,
in first-appearance order (the constructor initialises an entry for both
endpoints of each link, with no validation against the node set). -/
def adjacencyKeys (nb : NetworkBuilder) : List String :=
  nb.allLinks.foldl (fun acc l => insertNew (insertNew acc l.source) l.target) []

/-- Generic JS-`Set` accumulation pattern `nodes.forEach(n => if (f n)
matchedIds.add(n.id))` used by `searchNodes` and `filterByAttributes`. -/
def setFoldIds (f : GraphNode → Bool) (ns : List GraphNode) : List String :=
  ns.foldl (fun acc n => if f n then insertNew acc n.id else acc) []

/-- Access `node.properties?.k` on the flattened property bag. -/
def propGet (n : GraphNode) (k : String) : JsVal :=
  match n.properties with
  | some props => (mapGet props k).getD JsVal.undef
  | none => JsVal.undef

/-- Generic attribute access `(node as any)[field]` used by the `default`
branch of the search-field switch.  (The `properties` key never reaches
this branch: the switch intercepts it.) -/
def getAttr (n : GraphNode) : String → JsVal
  | "id" => .str n.id
  | "name" => .str n.name
  | "node_type" => .str n.node_type
  | "text" => n.text
  | "section_text" => n.section_text
  | "index_heading" => n.index_heading
  | "full_name" => n.full_name
  | "display_label" => n.display_label
  | "section_heading" => n.section_heading
  | "section_num" => n.section_num
  | "title_num" => n.title_num
  | "title" => n.title
  | "val" => n.val
  | "totalVal" => n.totalVal
  | "color" => n.color
  | "baseColor" => n.baseColor
  | f => (mapGet n.extra f).getD JsVal.undef

/-- The `value` computed by the search-field `switch` (all cases except
`properties`, which is handled separately because it pushes several
values and returns early). -/
def fieldValue (n : GraphNode) (field : String) : JsVal :=
  if field = "text" then
    jsOr (propGet n "text") (jsOr n.text (jsOr n.section_text n.index_heading))
  else if field = "full_name" then jsOr (propGet n "full_name") n.full_name
  else if field = "display_label" then n.display_label
  else if field = "definition" then propGet n "definition"
  else if field = "entity" then
    (if n.node_type = "entity" then .str n.name else .nullv)
  else if field = "concept" then
    (if n.node_type = "concept" then .str n.name else .nullv)
  else if field = "section_text" then
    jsOr n.section_text (jsOr (propGet n "text") n.text)
  else if field = "section_heading" then n.section_heading
  else if field = "section_num" then n.section_num
  else if field = "tag" then
    (if n.node_type = "concept" then .str n.name else .nullv)
  else getAttr n field

/-- The `searchableValues` array collected for one node: for the
`properties` field every string value of the bag (lower-cased); for any
other field the resolved `value`, stringified and lower-cased, skipped
when it is `null`/`undefined`. -/
def searchableValues (n : GraphNode) (fields : List String) : List String :=
  fields.foldl (fun acc field =>
    if field = "properties" then
      acc ++ (match n.properties with
        | some props =>
          props.foldl (fun a kv =>
            match kv.2 with
            | JsVal.str s => a ++ [toLowerStr s]
            | _ => a) []
        | none => [])
    else
      match fieldValue n field with
      | JsVal.nullv => acc
      | JsVal.undef => acc
      | v => acc ++ [toLowerStr v.toStr]) []

/-- Normalisation `t.toLowerCase().trim()` applied to each search term. -/
def normalizedTerm (t : String) : String := trimStr (toLowerStr t)

/-- The per-node AND/OR match test of `searchNodes`. -/
def nodeMatches (terms fields : List String) (lg : SearchLogic) (n : GraphNode) :
    Bool :=
  let vals := searchableValues n fields
  let nts := terms.map normalizedTerm
  match lg with
  | .OR => nts.any (fun t => vals.any (fun v => strIncludes v t))
  | .AND => nts.all (fun t => vals.any (fun v => strIncludes v t))

/-- Model of `searchNodes(searchTerms, searchFields, logic)` (lines 46-151). -/
def searchNodes (nb : NetworkBuilder) (terms fields : List String)
    (lg : SearchLogic) : List String :=
  setFoldIds (nodeMatches terms fields lg) nb.allNodes

/-- The `titleMatch` test of `filterByAttributes`: true when `titles` is
empty, else the node must be a section/index with a truthy `title_num`
contained in `titles` or a truthy `title` whose `parseInt` value is. -/
def titleMatchB (titles : List Int) (n : GraphNode) : Bool :=
  titles.isEmpty ||
  ((n.node_type = "section" || n.node_type = "index") &&
    ((n.title_num.truthy &&
      (match n.title_num with
       | .num k => titles.contains k
       | _ => false)) ||
     (n.title.truthy &&
      (match jsParseInt n.title.toStr with
       | some k => titles.contains k
       | none => false))))

/-- The `sectionMatch` test of `filterByAttributes`: true when `sections`
is empty, else the node needs a truthy `section_num` of which some
requested section is a case-insensitive substring. -/
def sectionMatchB (sections : List String) (n : GraphNode) : Bool :=
  sections.isEmpty ||
  (n.section_num.truthy &&
   sections.any (fun s =>
     strIncludes (toLowerStr n.section_num.toStr) (toLowerStr s)))

/-- The per-node decision of `filterByAttributes`: type membership alone
when `allowedNodeTypes` is non-empty; everything when no filter is set;
otherwise `titleMatch || sectionMatch`. -/
def filterCond (nodeTypes : List String) (titles : List Int)
    (sections : List String) (n : GraphNode) : Bool :=
  if !nodeTypes.isEmpty then nodeTypes.contains n.node_type
  else if titles.isEmpty && sections.isEmpty then true
  else titleMatchB titles n || sectionMatchB sections n

/-- Model of `filterByAttributes(allowedNodeTypes, allowedTitles, allowedSections)`
(lines 156-200). -/
def filterByAttributes (nb : NetworkBuilder) (nodeTypes : List String)
    (titles : List Int) (sections : List String) : List String :=
  setFoldIds (filterCond nodeTypes titles sections) nb.allNodes

/-- Process one frontier node of `expandFromSeeds`: filter its neighbour
list by edge type, cap it positionally, then add each not-yet-expanded
neighbour to both the expanded set and the next layer. -/
def stepNode (links : List GraphLink) (ets : List String) (maxN : Nat)
    (st : List String × List String) (nodeId : String) :
    List String × List String :=
  let neighbors := adjacency links nodeId
  let filtered :=
    if ets.isEmpty then neighbors
    else neighbors.filter (fun p => ets.contains p.2)
  let limited := if maxN > 0 then filtered.take maxN else filtered
  limited.foldl (fun st p =>
    if p.1 ∈ st.1 then st else (st.1 ++ [p.1], st.2 ++ [p.1])) st

/-- One breadth-first layer: fold `stepNode` over the current frontier,
starting from an empty next layer. -/
def expandLayer (links : List GraphLink) (ets : List String) (maxN : Nat)
    (expanded layer : List String) : List String × List String :=
  layer.foldl (stepNode links ets maxN) (expanded, [])

/-- The depth loop of `expandFromSeeds`, with the early break when a layer
contributes no new node. -/
def expandIter (links : List GraphLink) (ets : List String) (maxN : Nat) :
    Nat → List String → List String → List String
  | 0, expanded, _ => expanded
  | Nat.succ d, expanded, layer =>
    if (expandLayer links ets maxN expanded layer).2.isEmpty then
      (expandLayer links ets maxN expanded layer).1
    else
      expandIter links ets maxN d (expandLayer links ets maxN expanded layer).1
        (expandLayer links ets maxN expanded layer).2

/-- Model of `expandFromSeeds(seedIds, depth, maxNeighborsPerNode, allowedEdgeTypes)`
(lines 206-246).  The JS entry copies the seed set (`new Set(seedIds)`). -/
def expandFromSeeds (nb : NetworkBuilder) (seedIds : List String)
    (depth maxNeighborsPerNode : Nat) (allowedEdgeTypes : List String) :
    List String :=
  let seeds := jsSetOf seedIds
  expandIter nb.allLinks allowedEdgeTypes maxNeighborsPerNode depth seeds seeds

/-- Is a keyword search active for this query (`state.searchTerms.length >
0 && state.searchFields.length > 0`)? -/
def searchActive (s : NetworkBuilderState) : Bool :=
  !s.searchTerms.isEmpty && !s.searchFields.isEmpty

/-- Step 1 seed set: the search result when a search is active, otherwise
unused (empty). -/
def seedIdsOf (nb : NetworkBuilder) (s : NetworkBuilderState)
    (lg : SearchLogic) : List String :=
  if searchActive s then searchNodes nb s.searchTerms s.searchFields lg
  else []

/-- Step 1/1b candidates before the seed-only type filter: expanded seeds
when a search is active and `expansionDepth > 0`, the seeds themselves
otherwise; all node ids when no search is active.  When a search is
active but matched nothing the query short-circuits (candidates empty). -/
def preFilterCandidates (nb : NetworkBuilder) (s : NetworkBuilderState)
    (lg : SearchLogic) : List String :=
  if searchActive s then
    (if (seedIdsOf nb s lg).isEmpty then []
     else if s.expansionDepth > 0 then
       expandFromSeeds nb (seedIdsOf nb s lg) s.expansionDepth
         s.maxNodesPerExpansion s.allowedEdgeTypes
     else seedIdsOf nb s lg)
  else jsSetOf (nb.allNodes.map (fun n => n.id))

/-- Step 2: when a search was performed and `allowedNodeTypes` is
non-empty, keep a candidate iff it is a type-matching seed or it is not a
seed at all (expansion-only nodes are always kept). -/
def seedsAfterTypeFilter (nb : NetworkBuilder) (s : NetworkBuilderState)
    (lg : SearchLogic) : List String :=
  (seedIdsOf nb s lg).filter (fun id =>
    match nb.allNodes.find? (fun n => n.id = id) with
    | some node => s.allowedNodeTypes.contains node.node_type
    | none => false)

def candidateIdsOf (nb : NetworkBuilder) (s : NetworkBuilderState)
    (lg : SearchLogic) : List String :=
  if searchActive s && !s.allowedNodeTypes.isEmpty then
    (preFilterCandidates nb s lg).filter (fun id =>
      decide (id ∈ seedsAfterTypeFilter nb s lg) ||
      !(decide (id ∈ seedIdsOf nb s lg)))
  else preFilterCandidates nb s lg

/-- Model of `this.allNodes.forEach(n => if (S.has(n.id)) map.set(n.id, n))`:
the id-keyed node map (key order = first occurrence, value = last record
with that id). -/
def buildNodeMap (ns : List GraphNode) (S : List String) :
    List (String × GraphNode) :=
  ns.foldl (fun m n => if n.id ∈ S then jsMapSet m n.id n else m) []

/-- Step 3-4 candidate link selection: allowed edge type (empty allow-list
= all) and both endpoints present in the candidate node map. -/
def candidateLinksOf (nb : NetworkBuilder) (s : NetworkBuilderState)
    (lg : SearchLogic) : List GraphLink :=
  nb.allLinks.filter (fun l =>
    (s.allowedEdgeTypes.isEmpty || s.allowedEdgeTypes.contains l.edge_type) &&
    mapHasKey (buildNodeMap nb.allNodes (candidateIdsOf nb s lg)) l.source &&
    mapHasKey (buildNodeMap nb.allNodes (candidateIdsOf nb s lg)) l.target)

/-- Step 5 endpoint set `nodesWithEdges` of the candidate links. -/
def endpointSet (ls : List GraphLink) : List String :=
  ls.foldl (fun acc l => insertNew (insertNew acc l.source) l.target) []

/-- Step 5 connected candidate set: candidate nodes with at least one
retained candidate link, as an id set in candidate-map order. -/
def connectedIdsOf (nb : NetworkBuilder) (s : NetworkBuilderState)
    (lg : SearchLogic) : List String :=
  jsSetOf
    ((((buildNodeMap nb.allNodes (candidateIdsOf nb s lg)).map
        (fun p => p.2)).filter
      (fun n =>
        decide (n.id ∈ endpointSet (candidateLinksOf nb s lg)))).map
      (fun n => n.id))

/-- Per-link degree accumulation `m.set(k, (m.get(k) || 0) + 1)`. -/
def bumpKey (m : List (String × Nat)) (k : String) : List (String × Nat) :=
  jsMapSet m k ((mapGet m k).getD 0 + 1)

/-- Degree map of a link list: each link increments both endpoints
(a self-loop counts twice). -/
def linkDegrees (ls : List GraphLink) : List (String × Nat) :=
  ls.foldl (fun m l => bumpKey (bumpKey m l.source) l.target) []

/-- Model of `selectTopNodesByDegree(nodeIds, maxNodes)` (lines 540-558): degree in
the full base graph via the adjacency index, stable descending sort,
top `maxNodes`. -/
def selectTopNodesByDegree (nb : NetworkBuilder) (nodeIds : List String)
    (maxNodes : Nat) : List String :=
  let nodeDegrees := nodeIds.foldl
    (fun m id => jsMapSet m id (adjacency nb.allLinks id).length) []
  ((sortDesc (fun p => (p.2 : Int)) nodeDegrees).take maxNodes).map
    (fun p => p.1)

/-- Step 6-7 final node id set: the connected candidates when no
truncation is needed; otherwise the top `maxTotalNodes` by subgraph or
global degree. -/
def finalIdsOf (nb : NetworkBuilder) (s : NetworkBuilderState)
    (lg : SearchLogic) (md : RankingMode) : List String :=
  if (connectedIdsOf nb s lg).length > s.maxTotalNodes then
    match md with
    | .subgraph =>
      (sortDesc
        (fun id =>
          ((mapGet (linkDegrees (candidateLinksOf nb s lg)) id).getD 0 : Int))
        ((connectedIdsOf nb s lg).filter
          (fun id =>
            mapHasKey (linkDegrees (candidateLinksOf nb s lg)) id))).take
        s.maxTotalNodes
    | .global =>
      selectTopNodesByDegree nb (connectedIdsOf nb s lg) s.maxTotalNodes
  else connectedIdsOf nb s lg

/-- Step 8 final links: candidate links whose both endpoints survived
truncation. -/
def finalLinksOf (nb : NetworkBuilder) (s : NetworkBuilderState)
    (lg : SearchLogic) (md : RankingMode) : List GraphLink :=
  (candidateLinksOf nb s lg).filter (fun l =>
    mapHasKey (buildNodeMap nb.allNodes (finalIdsOf nb s lg md)) l.source &&
    mapHasKey (buildNodeMap nb.allNodes (finalIdsOf nb s lg md)) l.target)

/-- Model of `node.val = nodeDegree.get(node.id) || 1`. -/
def valOfId (degMap : List (String × Nat)) (id : String) : Nat :=
  match mapGet degMap id with
  | some k => if k = 0 then 1 else k
  | none => 1

/-- Model of `Math.max(...nodes.map(n => n.val), 1)` over the final node list. -/
def maxValOf (degMap : List (String × Nat)) (ns : List GraphNode) : Nat :=
  (ns.map (fun n => valOfId degMap n.id)).foldl max 1

/-- One colour channel `Math.round(c1 + (c2 - c1) * t)` at
`t = v / mx` (`mx ≥ 1` always holds at the call site), computed exactly
over the integers: `Math.round(x)` rounds half toward `+∞`, i.e. it is
the floor of `x + 1/2`, and for `x = (c1 * mx + (c2 - c1) * v) / mx` that
floor is the floor division of `2 * (c1 * mx + (c2 - c1) * v) + mx` by
`2 * mx`. -/
def interpChannel (c1 c2 : Int) (v mx : Nat) : Int :=
  Int.fdiv (2 * (c1 * (mx : Int) + (c2 - c1) * (v : Int)) + (mx : Int))
    (2 * (mx : Int))

/-- The CSS string `rgb(r, g, b)` built by the colour scales. -/
def rgbStr (r g b : Int) : String :=
  "rgb(" ++ toString r ++ ", " ++ toString g ++ ", " ++ toString b ++ ")"

/-- Scale `sectionColorScale`: anchors (0x9B,0x96,0xC9) → (0x41,0x37,0x8F). -/
def sectionColorScale (v mx : Nat) : String :=
  rgbStr (interpChannel 155 65 v mx) (interpChannel 150 55 v mx)
    (interpChannel 201 143 v mx)

/-- Scale `entityColorScale`: anchors (0xF9,0xD9,0x9B) → (0xF0,0xA7,0x34). -/
def entityColorScale (v mx : Nat) : String :=
  rgbStr (interpChannel 249 240 v mx) (interpChannel 217 167 v mx)
    (interpChannel 155 52 v mx)

/-- Scale `conceptColorScale`: anchors (0xE8,0xB3,0xE3) → (0x9C,0x33,0x91). -/
def conceptColorScale (v mx : Nat) : String :=
  rgbStr (interpChannel 232 156 v mx) (interpChannel 179 51 v mx)
    (interpChannel 227 145 v mx)

/-- Colour choice by node type at `t = v / mx`, `'#AFBBE8'` fallback. -/
def colorFor (node_type : String) (v mx : Nat) : String :=
  if node_type = "section" ∨ node_type = "index" then sectionColorScale v mx
  else if node_type = "entity" then entityColorScale v mx
  else if node_type = "concept" then conceptColorScale v mx
  else "#AFBBE8"

/-- The in-place display annotation of step 8: write `val`, `totalVal`,
`color`, `baseColor` on a node record. -/
def applyDisplay (degMap : List (String × Nat)) (mx : Nat) (n : GraphNode) :
    GraphNode :=
  { n with val := JsVal.num ((valOfId degMap n.id : Nat) : Int),
           totalVal := JsVal.num ((valOfId degMap n.id : Nat) : Int),
           color := JsVal.str (colorFor n.node_type (valOfId degMap n.id) mx),
           baseColor :=
             JsVal.str (colorFor n.node_type (valOfId degMap n.id) mx) }

/-- The base node list after the query: the display annotation hits, for
each final id, the record that `selectedNodeMap` holds for it — the last
occurrence of that id in `allNodes`. -/
def updateBase (degMap : List (String × Nat)) (mx : Nat)
    (finalIds : List String) : List GraphNode → List GraphNode
  | [] => []
  | n :: rest =>
    (if decide (n.id ∈ finalIds) && rest.all (fun m => !(decide (m.id = n.id)))
     then applyDisplay degMap mx n else n) :: updateBase degMap mx finalIds rest

/-- Result of one `buildNetwork` call: the returned `FilteredGraph`
together with the post-call state of the engine's base node list (the
code annotates shared records in place; the embedding passes that state
explicitly). -/
structure BuildResult where
  graph : FilteredGraph
  postNodes : List GraphNode
deriving DecidableEq

/-- Step 7 `selectedNodeMap` values: the final node records (one per
distinct final id, in first-occurrence order, last record winning). -/
def finalNodeRecords (nb : NetworkBuilder) (s : NetworkBuilderState)
    (lg : SearchLogic) (md : RankingMode) : List GraphNode :=
  (buildNodeMap nb.allNodes (finalIdsOf nb s lg md)).map (fun p => p.2)

/-- Step 8 `nodeDegree` map of the final link list. -/
def finalDegMap (nb : NetworkBuilder) (s : NetworkBuilderState)
    (lg : SearchLogic) (md : RankingMode) : List (String × Nat) :=
  linkDegrees (finalLinksOf nb s lg md)

/-- Step 8 `maxVal` over the final nodes. -/
def finalMaxVal (nb : NetworkBuilder) (s : NetworkBuilderState)
    (lg : SearchLogic) (md : RankingMode) : Nat :=
  maxValOf (finalDegMap nb s lg md) (finalNodeRecords nb s lg md)

/-- Model of `buildNetwork(state, searchLogic, nodeRankingMode)` (lines 251-534),
including the early return on an empty search result and the in-place
display annotation of step 8. -/
def buildNetworkFull (nb : NetworkBuilder) (s : NetworkBuilderState)
    (lg : SearchLogic) (md : RankingMode) : BuildResult :=
  if searchActive s && (seedIdsOf nb s lg).isEmpty then
    { graph := { nodes := [], links := [], truncated := false,
                 matchedCount := 0 },
      postNodes := nb.allNodes }
  else
    { graph := { nodes := (finalNodeRecords nb s lg md).map
                   (applyDisplay (finalDegMap nb s lg md)
                     (finalMaxVal nb s lg md)),
                 links := finalLinksOf nb s lg md,
                 truncated :=
                   decide ((connectedIdsOf nb s lg).length > s.maxTotalNodes),
                 matchedCount := (connectedIdsOf nb s lg).length },
      postNodes := updateBase (finalDegMap nb s lg md) (finalMaxVal nb s lg md)
        (finalIdsOf nb s lg md) nb.allNodes }

/-- Local degree of a node id within a link list as the specification
describes it: the number of incident links (a self-loop counts twice). -/
def specLocalDeg (ls : List GraphLink) (id : String) : Nat :=
  ls.countP (fun l => decide (id = l.source)) +
  ls.countP (fun l => decide (id = l.target))

/-- Maximum local degree over a node list (0 when the list is empty). -/
def specMaxDeg (ns : List GraphNode) (ls : List GraphLink) : Nat :=
  (ns.map (fun n => specLocalDeg ls n.id)).foldl max 0

/-- The title predicate exactly as the claim about `filterByAttributes`
words it: the node is a section or index and its numeric `title_num` is in
`titles`, or its `title` string parsed as an integer is. -/
def claimTitlePred (titles : List Int) (n : GraphNode) : Bool :=
  (n.node_type = "section" || n.node_type = "index") &&
  ((match n.title_num with
    | .num k => titles.contains k
    | _ => false) ||
   (match n.title with
    | .str s =>
      (match jsParseInt s with
       | some k => titles.contains k
       | none => false)
    | _ => false))

/-- The section predicate exactly as the claim words it: the node has a
`section_num` and some requested section string is a case-insensitive
substring of it. -/
def claimSectionPred (sections : List String) (n : GraphNode) : Bool :=
  (match n.section_num with
   | .undef => false
   | .nullv => false
   | v => sections.any (fun s => strIncludes (toLowerStr v.toStr) (toLowerStr s)))

/-- Two node records agreeing on every field except the four display
outputs `val`, `totalVal`, `color`, `baseColor`. -/
def sameExceptDisplay (a b : GraphNode) : Prop :=
  a.id = b.id ∧ a.name = b.name ∧ a.node_type = b.node_type ∧
  a.properties = b.properties ∧ a.text = b.text ∧
  a.section_text = b.section_text ∧ a.index_heading = b.index_heading ∧
  a.full_name = b.full_name ∧ a.display_label = b.display_label ∧
  a.section_heading = b.section_heading ∧ a.section_num = b.section_num ∧
  a.title_num = b.title_num ∧ a.title = b.title ∧ a.extra = b.extra

/-- A bare section node used by the concrete test graphs. -/
def mkNode (i : String) : GraphNode :=
  { id := i, name := i, node_type := "section" }

/-- A reference link used by the concrete test graphs. -/
def mkLink (s t : String) : GraphLink :=
  { source := s, target := t, edge_type := "reference" }

/-- Star-plus-edge fixture: A-B and C-D, C-E, C-F.  Under a node cap of 2
and global ranking the survivors are C (degree 3) and A (first degree-1
node), both of whose links are then dropped. -/
def nbStar : NetworkBuilder :=
  { allNodes := [mkNode "A", mkNode "B", mkNode "C", mkNode "D", mkNode "E",
                 mkNode "F"],
    allLinks := [mkLink "A" "B", mkLink "C" "D", mkLink "C" "E",
                 mkLink "C" "F"] }

/-- Filter state with no search and no filters, capped at `m` nodes. -/
def plainState (m : Nat) : NetworkBuilderState :=
  { searchTerms := [], searchFields := [], allowedNodeTypes := [],
    allowedEdgeTypes := [], allowedTitles := [], allowedSections := [],
    seedNodeIds := [], expansionDepth := 0, maxNodesPerExpansion := 0,
    maxTotalNodes := m }

/-- Path fixture without a dangling link: A-B, B-C. -/
def nbPath : NetworkBuilder :=
  { allNodes := [mkNode "A", mkNode "B", mkNode "C"],
    allLinks := [mkLink "A" "B", mkLink "B" "C"] }

/-- Path fixture plus a dangling link C-Z (`Z` is not a node). -/
def nbPathDangling : NetworkBuilder :=
  { allNodes := [mkNode "A", mkNode "B", mkNode "C"],
    allLinks := [mkLink "A" "B", mkLink "B" "C", mkLink "C" "Z"] }

theorem mem_insertNew {l : List String} {x y : String} :
    y ∈ insertNew l x ↔ y ∈ l ∨ y = x := by
  unfold insertNew
  split
  case isTrue hx =>
    simp only [iff_self_or]
    intro h
    subst h
    exact hx
  case isFalse hx => simp

theorem nodup_insertNew {l : List String} {x : String} (h : l.Nodup) :
    (insertNew l x).Nodup := by
  unfold insertNew
  split
  case isTrue => exact h
  case isFalse hx =>
    simpa [List.nodup_append, h] using hx

theorem insertNew_ne_nil {l : List String} {x : String} :
    insertNew l x ≠ [] := by
  unfold insertNew
  split
  case isTrue hx =>
    intro h
    subst h
    simp at hx
  case isFalse hx => simp

theorem mem_foldl_insertNew {l : List String} :
    ∀ {acc : List String} {y : String},
      y ∈ l.foldl insertNew acc ↔ y ∈ acc ∨ y ∈ l := by
  induction l with
  | nil => simp
  | cons a t ih =>
    intro acc y
    simp only [List.foldl_cons, ih, mem_insertNew, List.mem_cons]
    tauto

theorem nodup_foldl_insertNew {l : List String} :
    ∀ {acc : List String}, acc.Nodup → (l.foldl insertNew acc).Nodup := by
  induction l with
  | nil => intro acc h; simpa using h
  | cons a t ih =>
    intro acc h
    exact ih (nodup_insertNew h)

theorem mem_jsSetOf {l : List String} {y : String} :
    y ∈ jsSetOf l ↔ y ∈ l := by
  unfold jsSetOf
  simp [mem_foldl_insertNew]

theorem nodup_jsSetOf {l : List String} : (jsSetOf l).Nodup :=
  nodup_foldl_insertNew List.nodup_nil

theorem foldl_insertNew_of_disjoint {l : List String} :
    ∀ {acc : List String}, l.Nodup → (∀ x ∈ l, x ∉ acc) →
      l.foldl insertNew acc = acc ++ l := by
  induction l with
  | nil => simp
  | cons a t ih =>
    intro acc hnd hdis
    have ha : a ∉ acc := hdis a (by simp)
    have h1 : insertNew acc a = acc ++ [a] := by
      unfold insertNew
      simp [ha]
    simp only [List.foldl_cons, h1]
    rw [ih (List.Nodup.of_cons hnd)]
    · simp
    · intro x hx
      simp only [List.mem_append, List.mem_singleton]
      rintro (h | h)
      · exact hdis x (by simp [hx]) h
      · subst h
        exact (List.nodup_cons.mp hnd).1 hx

theorem jsSetOf_eq_of_nodup {l : List String} (h : l.Nodup) :
    jsSetOf l = l := by
  unfold jsSetOf
  simpa using foldl_insertNew_of_disjoint h (by simp)

theorem mem_setFoldIds {f : GraphNode → Bool} {ns : List GraphNode}
    {y : String} :
    y ∈ setFoldIds f ns ↔ ∃ n ∈ ns, f n = true ∧ n.id = y := by
  unfold setFoldIds
  suffices h : ∀ acc : List String,
      y ∈ ns.foldl (fun acc n => if f n then insertNew acc n.id else acc) acc ↔
        y ∈ acc ∨ ∃ n ∈ ns, f n = true ∧ n.id = y by
    simpa using h []
  induction ns with
  | nil => simp
  | cons a t ih =>
    intro acc
    simp only [List.foldl_cons]
    by_cases hfa : f a
    · simp only [hfa, if_true, ih, mem_insertNew, List.mem_cons]
      constructor
      · rintro (⟨h | h⟩ | h)
        · exact Or.inl h
        · exact Or.inr ⟨a, Or.inl rfl, hfa, h.symm⟩
        · obtain ⟨n, hn, hf, hid⟩ := h
          exact Or.inr ⟨n, Or.inr hn, hf, hid⟩
      · rintro (h | ⟨n, hn | hn, hf, hid⟩)
        · exact Or.inl (Or.inl h)
        · subst hn
          exact Or.inl (Or.inr hid.symm)
        · exact Or.inr ⟨n, hn, hf, hid⟩
    · simp only [hfa, if_false, ih, List.mem_cons]
      constructor
      · rintro (h | ⟨n, hn, hf, hid⟩)
        · exact Or.inl h
        · exact Or.inr ⟨n, Or.inr hn, hf, hid⟩
      · rintro (h | ⟨n, hn | hn, hf, hid⟩)
        · exact Or.inl h
        · subst hn
          simp [hfa] at hf
        · exact Or.inr ⟨n, hn, hf, hid⟩

theorem nodup_setFoldIds {f : GraphNode → Bool} {ns : List GraphNode} :
    (setFoldIds f ns).Nodup := by
  unfold setFoldIds
  suffices h : ∀ acc : List String, acc.Nodup →
      (ns.foldl (fun acc n => if f n then insertNew acc n.id else acc)
        acc).Nodup by
    exact h [] List.nodup_nil
  induction ns with
  | nil => intro acc h; simpa using h
  | cons a t ih =>
    intro acc h
    simp only [List.foldl_cons]
    by_cases hfa : f a
    · simp only [hfa, if_true]
      exact ih _ (nodup_insertNew h)
    · simp only [hfa, if_false]
      exact ih _ h

theorem mem_endpointSet {ls : List GraphLink} {y : String} :
    y ∈ endpointSet ls ↔ ∃ l ∈ ls, l.source = y ∨ l.target = y := by
  unfold endpointSet
  suffices h : ∀ acc : List String,
      y ∈ ls.foldl (fun acc l => insertNew (insertNew acc l.source) l.target)
          acc ↔
        y ∈ acc ∨ ∃ l ∈ ls, l.source = y ∨ l.target = y by
    simpa using h []
  induction ls with
  | nil => simp
  | cons a t ih =>
    intro acc
    simp only [List.foldl_cons, ih, mem_insertNew, List.mem_cons]
    constructor
    · rintro (((h | h) | h) | h)
      · exact Or.inl h
      · exact Or.inr ⟨a, Or.inl rfl, Or.inl h.symm⟩
      · exact Or.inr ⟨a, Or.inl rfl, Or.inr h.symm⟩
      · obtain ⟨l, hl, hy⟩ := h
        exact Or.inr ⟨l, Or.inr hl, hy⟩
    · rintro (h | ⟨l, hl | hl, hy | hy⟩)
      · exact Or.inl (Or.inl (Or.inl h))
      · subst hl
        exact Or.inl (Or.inl (Or.inr hy.symm))
      · subst hl
        exact Or.inl (Or.inr hy.symm)
      · exact Or.inr ⟨l, hl, Or.inl hy⟩
      · exact Or.inr ⟨l, hl, Or.inr hy⟩

theorem mapGet_eq_none_iff {α : Type} {m : List (String × α)} {k : String} :
    mapGet m k = none ↔ ∀ p ∈ m, p.1 ≠ k := by
  induction m with
  | nil => simp [mapGet]
  | cons p t ih =>
    simp only [mapGet, List.mem_cons]
    split
    case isTrue h =>
      constructor
      · intro hc
        exact absurd hc (by simp)
      · intro hall
        exact absurd h (hall p (Or.inl rfl))
    case isFalse h =>
      rw [ih]
      constructor
      · intro hall q hq
        rcases hq with hq | hq
        · subst hq
          exact h
        · exact hall q hq
      · intro hall q hq
        exact hall q (Or.inr hq)

theorem mapHasKey_iff {α : Type} {m : List (String × α)} {k : String} :
    mapHasKey m k = true ↔ ∃ p ∈ m, p.1 = k := by
  unfold mapHasKey
  rw [Option.isSome_iff_ne_none]
  constructor
  · intro h
    by_contra hc
    push_neg at hc
    exact h (mapGet_eq_none_iff.mpr hc)
  · intro ⟨p, hp, hk⟩ h
    exact (mapGet_eq_none_iff.mp h) p hp hk

theorem mapGet_replace_ne {α : Type} {m : List (String × α)} {k x : String}
    {v : α} (hxk : x ≠ k) :
    mapGet (m.map (fun p => if p.1 = k then (k, v) else p)) x = mapGet m x := by
  induction m with
  | nil => rfl
  | cons q t ih =>
    simp only [List.map_cons, mapGet]
    by_cases hq : q.1 = k
    · simp only [hq, if_true, mapGet]
      rw [if_neg (fun h => hxk h.symm), if_neg (fun h => hxk h.symm)]
      exact ih
    · simp only [hq, if_false, mapGet]
      split
      · rfl
      · exact ih

theorem mapGet_replace_eq {α : Type} {m : List (String × α)} {k : String}
    {v : α} (h : ∃ p ∈ m, p.1 = k) :
    mapGet (m.map (fun p => if p.1 = k then (k, v) else p)) k = some v := by
  induction m with
  | nil => simp at h
  | cons q t ih =>
    simp only [List.map_cons]
    by_cases hq : q.1 = k
    · simp [hq, mapGet]
    · simp only [hq, if_false, mapGet, if_neg hq]
      apply ih
      obtain ⟨p, hp, hk⟩ := h
      rcases List.mem_cons.mp hp with hp | hp
      · subst hp
        exact absurd hk hq
      · exact ⟨p, hp, hk⟩

theorem mapGet_append_single {α : Type} {m : List (String × α)}
    {k x : String} {v : α} :
    mapGet (m ++ [(k, v)]) x =
      match mapGet m x with
      | some w => some w
      | none => if k = x then some v else none := by
  induction m with
  | nil => simp [mapGet]
  | cons q t ih =>
    simp only [List.cons_append, mapGet]
    split
    · rfl
    · exact ih

theorem mapGet_jsMapSet {α : Type} {m : List (String × α)} {k x : String}
    {v : α} :
    mapGet (jsMapSet m k v) x = if x = k then some v else mapGet m x := by
  unfold jsMapSet
  split
  case isTrue h =>
    by_cases hxk : x = k
    · subst hxk
      rw [if_pos rfl, mapGet_replace_eq (mapHasKey_iff.mp h)]
    · rw [if_neg hxk, mapGet_replace_ne hxk]
  case isFalse h =>
    have hn : mapGet m k = none := by
      unfold mapHasKey at h
      simpa [Option.isSome_iff_ne_none] using h
    rw [mapGet_append_single]
    by_cases hxk : x = k
    · subst hxk
      simp [hn]
    · simp only [if_neg hxk]
      rw [if_neg (fun h2 => hxk h2.symm)]
      cases mapGet m x <;> rfl

theorem keys_jsMapSet {α : Type} {m : List (String × α)} {k : String}
    {v : α} :
    (jsMapSet m k v).map Prod.fst = insertNew (m.map Prod.fst) k := by
  unfold jsMapSet insertNew
  have hmem : mapHasKey m k = true ↔ k ∈ m.map Prod.fst := by
    rw [mapHasKey_iff]
    simp [List.mem_map]
  by_cases h : mapHasKey m k
  · rw [if_pos h, if_pos (hmem.mp h)]
    rw [List.map_map]
    apply List.map_congr_left
    intro p _
    by_cases hp : p.1 = k
    · simp [hp]
    · simp [hp]
  · rw [if_neg h, if_neg (fun hc => h (hmem.mpr hc))]
    simp

theorem mem_jsMapSet {α : Type} {m : List (String × α)} {k : String} {v : α}
    {p : String × α} (hp : p ∈ jsMapSet m k v) : p ∈ m ∨ p = (k, v) := by
  unfold jsMapSet at hp
  split at hp
  · obtain ⟨q, hq, he⟩ := List.mem_map.mp hp
    by_cases h : q.1 = k
    · right
      rw [← he]
      simp [h]
    · left
      rw [← he]
      simpa [h] using hq
  · rcases List.mem_append.mp hp with h | h
    · exact Or.inl h
    · right
      simpa using h

theorem keys_buildNodeMap {ns : List GraphNode} {S : List String} :
    (buildNodeMap ns S).map Prod.fst =
      setFoldIds (fun n => decide (n.id ∈ S)) ns := by
  unfold buildNodeMap setFoldIds
  suffices h : ∀ m : List (String × GraphNode),
      (ns.foldl (fun m n => if n.id ∈ S then jsMapSet m n.id n else m) m).map
          Prod.fst =
        ns.foldl (fun acc n => if decide (n.id ∈ S) then insertNew acc n.id
          else acc) (m.map Prod.fst) by
    simpa using h []
  induction ns with
  | nil => simp
  | cons a t ih =>
    intro m
    simp only [List.foldl_cons]
    by_cases ha : a.id ∈ S
    · rw [if_pos ha, if_pos (by simpa using ha), ih, keys_jsMapSet]
    · rw [if_neg ha, if_neg (by simpa using ha), ih]

theorem entry_buildNodeMap {ns : List GraphNode} {S : List String} :
    ∀ p ∈ buildNodeMap ns S, p.2 ∈ ns ∧ p.2.id = p.1 ∧ p.1 ∈ S := by
  unfold buildNodeMap
  suffices h : ∀ l : List GraphNode, (∀ n ∈ l, n ∈ ns) →
      ∀ m : List (String × GraphNode),
        (∀ q ∈ m, q.2 ∈ ns ∧ q.2.id = q.1 ∧ q.1 ∈ S) →
        ∀ p ∈ l.foldl (fun m n => if n.id ∈ S then jsMapSet m n.id n else m) m,
          p.2 ∈ ns ∧ p.2.id = p.1 ∧ p.1 ∈ S by
    exact h ns (fun n hn => hn) [] (by simp)
  intro l
  induction l with
  | nil =>
    intro _ m hm p hp
    exact hm p hp
  | cons a t ih =>
    intro hsub m hm p hp
    simp only [List.foldl_cons] at hp
    refine ih (fun n hn => hsub n (List.mem_cons.mpr (Or.inr hn))) _ ?_ p hp
    intro q hq
    by_cases ha : a.id ∈ S
    · rw [if_pos ha] at hq
      rcases mem_jsMapSet hq with h | h
      · exact hm q h
      · subst h
        exact ⟨hsub a (List.mem_cons.mpr (Or.inl rfl)), rfl, ha⟩
    · rw [if_neg ha] at hq
      exact hm q hq

theorem mapGet_bumpKey {m : List (String × Nat)} {k x : String} :
    (mapGet (bumpKey m k) x).getD 0 =
      (mapGet m x).getD 0 + (if x = k then 1 else 0) := by
  unfold bumpKey
  rw [mapGet_jsMapSet]
  by_cases h : x = k <;> simp [h]

theorem hasKey_bumpKey {m : List (String × Nat)} {k x : String} :
    mapHasKey (bumpKey m k) x = true ↔ x = k ∨ mapHasKey m x = true := by
  unfold bumpKey mapHasKey
  rw [mapGet_jsMapSet]
  by_cases h : x = k <;> simp [h]

theorem linkDegrees_fold_getD {ls : List GraphLink} :
    ∀ {m : List (String × Nat)} {k : String},
      (mapGet (ls.foldl (fun m l => bumpKey (bumpKey m l.source) l.target) m)
          k).getD 0 =
        (mapGet m k).getD 0 + specLocalDeg ls k := by
  induction ls with
  | nil => simp [specLocalDeg]
  | cons a t ih =>
    intro m k
    simp only [List.foldl_cons]
    rw [ih, mapGet_bumpKey, mapGet_bumpKey]
    unfold specLocalDeg
    simp only [List.countP_cons]
    by_cases h1 : k = a.source <;> by_cases h2 : k = a.target <;>
      simp [h1, h2] <;> omega

theorem linkDegrees_getD {ls : List GraphLink} {k : String} :
    (mapGet (linkDegrees ls) k).getD 0 = specLocalDeg ls k := by
  unfold linkDegrees
  rw [linkDegrees_fold_getD]
  simp [mapGet]

theorem hasKey_linkDegrees {ls : List GraphLink} {k : String} :
    mapHasKey (linkDegrees ls) k = true ↔
      ∃ l ∈ ls, l.source = k ∨ l.target = k := by
  unfold linkDegrees
  suffices h : ∀ m : List (String × Nat),
      mapHasKey (ls.foldl (fun m l => bumpKey (bumpKey m l.source) l.target) m)
          k = true ↔
        mapHasKey m k = true ∨ ∃ l ∈ ls, l.source = k ∨ l.target = k by
    simpa [mapHasKey, mapGet] using h []
  induction ls with
  | nil => simp
  | cons a t ih =>
    intro m
    simp only [List.foldl_cons, ih, hasKey_bumpKey, List.mem_cons]
    constructor
    · rintro ((h | h | h) | h)
      · exact Or.inr ⟨a, Or.inl rfl, Or.inr h.symm⟩
      · exact Or.inr ⟨a, Or.inl rfl, Or.inl h.symm⟩
      · exact Or.inl h
      · obtain ⟨l, hl, hy⟩ := h
        exact Or.inr ⟨l, Or.inr hl, hy⟩
    · rintro (h | ⟨l, hl | hl, hy | hy⟩)
      · exact Or.inl (Or.inr (Or.inr h))
      · subst hl
        exact Or.inl (Or.inr (Or.inl hy.symm))
      · subst hl
        exact Or.inl (Or.inl hy.symm)
      · exact Or.inr ⟨l, hl, Or.inl hy⟩
      · exact Or.inr ⟨l, hl, Or.inr hy⟩

theorem perm_insDesc {α : Type} (key : α → Int) (l : List α) (x : α) :
    List.Perm (insDesc key l x) (x :: l) := by
  induction l with
  | nil => exact List.Perm.refl _
  | cons y ys ih =>
    unfold insDesc
    split
    · exact List.Perm.trans (List.Perm.cons y ih) (List.Perm.swap x y ys)
    · exact List.Perm.refl _

theorem perm_foldl_insDesc {α : Type} (key : α → Int) (l : List α) :
    ∀ acc : List α, List.Perm (l.foldl (insDesc key) acc) (acc ++ l) := by
  induction l with
  | nil => simp
  | cons a t ih =>
    intro acc
    simp only [List.foldl_cons]
    refine List.Perm.trans (ih _) ?_
    refine List.Perm.trans ((perm_insDesc key acc a).append_right t) ?_
    exact List.perm_middle.symm

theorem perm_sortDesc {α : Type} (key : α → Int) (l : List α) :
    List.Perm (sortDesc key l) l := by
  unfold sortDesc
  simpa using perm_foldl_insDesc key l []

theorem length_sortDesc {α : Type} (key : α → Int) (l : List α) :
    (sortDesc key l).length = l.length :=
  (perm_sortDesc key l).length_eq

theorem jsMapSet_absent {α : Type} {m : List (String × α)} {k : String}
    {v : α} (h : mapHasKey m k = false) : jsMapSet m k v = m ++ [(k, v)] := by
  unfold jsMapSet
  rw [if_neg (by simp [h])]

theorem hasKey_append_single {α : Type} {m : List (String × α)}
    {k x : String} {v : α} :
    mapHasKey (m ++ [(k, v)]) x = (mapHasKey m x || decide (k = x)) := by
  unfold mapHasKey
  rw [mapGet_append_single]
  cases h : mapGet m x
  · by_cases hk : k = x <;> simp [hk]
  · simp

theorem foldl_jsMapSet_of_nodup {α : Type} (g : String → α)
    {ids : List String} (hnd : ids.Nodup) :
    ids.foldl (fun m id => jsMapSet m id (g id)) [] =
      ids.map (fun id => (id, g id)) := by
  suffices h : ∀ acc : List (String × α), ids.Nodup →
      (∀ x ∈ ids, mapHasKey acc x = false) →
      ids.foldl (fun m id => jsMapSet m id (g id)) acc =
        acc ++ ids.map (fun id => (id, g id)) by
    simpa using h [] hnd (fun x _ => by simp [mapHasKey, mapGet])
  clear hnd
  induction ids with
  | nil => simp
  | cons a t ih =>
    intro acc hnd habs
    simp only [List.foldl_cons, List.map_cons]
    rw [jsMapSet_absent (habs a (List.mem_cons.mpr (Or.inl rfl)))]
    have habs2 : ∀ x ∈ t, mapHasKey (acc ++ [(a, g a)]) x = false := by
      intro x hx
      rw [hasKey_append_single]
      have h1 : mapHasKey acc x = false :=
        habs x (List.mem_cons.mpr (Or.inr hx))
      have h2 : a ≠ x := fun he => (List.nodup_cons.mp hnd).1 (he ▸ hx)
      simp [h1, h2]
    rw [ih (acc ++ [(a, g a)]) (List.Nodup.of_cons hnd) habs2]
    simp

theorem foldl_addNew_fst_extends (L : List (String × String)) :
    ∀ st : List String × List String,
      ∃ r, (L.foldl (fun st p =>
        if p.1 ∈ st.1 then st else (st.1 ++ [p.1], st.2 ++ [p.1])) st).1 =
          st.1 ++ r := by
  induction L with
  | nil =>
    intro st
    exact ⟨[], by simp⟩
  | cons a t ih =>
    intro st
    simp only [List.foldl_cons]
    by_cases h : a.1 ∈ st.1
    · obtain ⟨r, hr⟩ := ih st
      refine ⟨r, ?_⟩
      rwa [if_pos h]
    · obtain ⟨r, hr⟩ := ih (st.1 ++ [a.1], st.2 ++ [a.1])
      refine ⟨[a.1] ++ r, ?_⟩
      rw [if_neg h, hr]
      simp

theorem stepNode_fst_extends (links : List GraphLink) (ets : List String)
    (maxN : Nat) (st : List String × List String) (nodeId : String) :
    ∃ r, (stepNode links ets maxN st nodeId).1 = st.1 ++ r := by
  unfold stepNode
  exact foldl_addNew_fst_extends _ st

theorem foldl_stepNode_fst_extends (links : List GraphLink) (ets : List String)
    (maxN : Nat) (layer : List String) :
    ∀ st : List String × List String,
      ∃ r, (layer.foldl (stepNode links ets maxN) st).1 = st.1 ++ r := by
  induction layer with
  | nil =>
    intro st
    exact ⟨[], by simp⟩
  | cons a t ih =>
    intro st
    simp only [List.foldl_cons]
    obtain ⟨r1, hr1⟩ := stepNode_fst_extends links ets maxN st a
    obtain ⟨r2, hr2⟩ := ih (stepNode links ets maxN st a)
    refine ⟨r1 ++ r2, ?_⟩
    rw [hr2, hr1, List.append_assoc]

theorem expandLayer_fst_extends (links : List GraphLink) (ets : List String)
    (maxN : Nat) (e layer : List String) :
    ∃ r, (expandLayer links ets maxN e layer).1 = e ++ r := by
  unfold expandLayer
  exact foldl_stepNode_fst_extends links ets maxN layer (e, [])

theorem expandIter_extends (links : List GraphLink) (ets : List String)
    (maxN : Nat) :
    ∀ (d : Nat) (e l : List String),
      ∃ r, expandIter links ets maxN d e l = e ++ r := by
  intro d
  induction d with
  | zero =>
    intro e l
    exact ⟨[], by simp [expandIter]⟩
  | succ d ih =>
    intro e l
    obtain ⟨r1, hr1⟩ := expandLayer_fst_extends links ets maxN e l
    simp only [expandIter]
    split
    · exact ⟨r1, hr1⟩
    · obtain ⟨r2, hr2⟩ :=
        ih (expandLayer links ets maxN e l).1 (expandLayer links ets maxN e l).2
      refine ⟨r1 ++ r2, ?_⟩
      rw [hr2, hr1, List.append_assoc]

theorem expandIter_len_mono (links : List GraphLink) (ets : List String)
    (maxN : Nat) :
    ∀ (d : Nat) (e l : List String),
      (expandIter links ets maxN d e l).length ≤
        (expandIter links ets maxN (d + 1) e l).length := by
  intro d
  induction d with
  | zero =>
    intro e l
    obtain ⟨r, hr⟩ := expandLayer_fst_extends links ets maxN e l
    simp only [expandIter]
    split <;> simp [hr]
  | succ d ih =>
    intro e l
    conv_lhs => rw [expandIter]
    conv_rhs => rw [expandIter]
    split
    · exact Nat.le_refl _
    · exact ih (expandLayer links ets maxN e l).1 (expandLayer links ets maxN e l).2

theorem setFoldIds_of_false {f : GraphNode → Bool} {ns : List GraphNode}
    (h : ∀ n ∈ ns, f n = false) : setFoldIds f ns = [] := by
  unfold setFoldIds
  suffices haux : ∀ acc : List String, (∀ n ∈ ns, f n = false) →
      ns.foldl (fun acc n => if f n then insertNew acc n.id else acc) acc =
        acc by
    exact haux [] h
  clear h
  induction ns with
  | nil => simp
  | cons a t ih =>
    intro acc hall
    simp only [List.foldl_cons, hall a (List.mem_cons.mpr (Or.inl rfl)),
      Bool.false_eq_true, if_false]
    exact ih _ (fun n hn => hall n (List.mem_cons.mpr (Or.inr hn)))

theorem setFoldIds_of_true {f : GraphNode → Bool} {ns : List GraphNode}
    (h : ∀ n ∈ ns, f n = true) :
    setFoldIds f ns = ns.foldl (fun acc n => insertNew acc n.id) [] := by
  unfold setFoldIds
  suffices haux : ∀ acc : List String, (∀ n ∈ ns, f n = true) →
      ns.foldl (fun acc n => if f n then insertNew acc n.id else acc) acc =
        ns.foldl (fun acc n => insertNew acc n.id) acc by
    exact haux [] h
  clear h
  induction ns with
  | nil => simp
  | cons a t ih =>
    intro acc hall
    simp only [List.foldl_cons, hall a (List.mem_cons.mpr (Or.inl rfl)),
      if_true]
    exact ih _ (fun n hn => hall n (List.mem_cons.mpr (Or.inr hn)))

/-- C9: for every seed set (`expandFromSeeds` receives a JS `Set`, so the
seed list is duplicate-free) and every fixed `maxNeighborsPerNode` and
`allowedEdgeTypes`, the expansion result contains the seeds, its size is
monotonically non-decreasing in `depth`, and `depth = 0` yields exactly
the seeds. -/
theorem claim_C9_expansion (nb : NetworkBuilder) (seeds : List String)
    (depth maxN : Nat) (ets : List String) (hnd : seeds.Nodup) :
    (∀ x ∈ seeds, x ∈ expandFromSeeds nb seeds depth maxN ets) ∧
    (expandFromSeeds nb seeds depth maxN ets).length ≤
      (expandFromSeeds nb seeds (depth + 1) maxN ets).length ∧
    expandFromSeeds nb seeds 0 maxN ets = seeds := by
  unfold expandFromSeeds
  rw [jsSetOf_eq_of_nodup hnd]
  refine ⟨?_, ?_, by simp [expandIter]⟩
  · intro x hx
    obtain ⟨r, hr⟩ := expandIter_extends nb.allLinks ets maxN depth seeds seeds
    rw [hr]
    exact List.mem_append.mpr (Or.inl hx)
  · exact expandIter_len_mono nb.allLinks ets maxN depth seeds seeds

/-- Witness for C9 at a concrete engine and seed set. -/
theorem claim_C9_expansion_witness :
    (["C"] : List String).Nodup ∧
    ((∀ x ∈ (["C"] : List String), x ∈ expandFromSeeds nbStar ["C"] 1 0 []) ∧
     (expandFromSeeds nbStar ["C"] 1 0 []).length ≤
       (expandFromSeeds nbStar ["C"] 2 0 []).length ∧
     expandFromSeeds nbStar ["C"] 0 0 [] = ["C"]) :=
  ⟨by decide, claim_C9_expansion nbStar ["C"] 1 0 [] (by decide)⟩

/-- C3 (amended): under OR logic an empty term list or an empty field list
yields the empty match set, and under AND logic an empty field list with a
non-empty term list yields the empty match set; but under AND logic an
empty term list vacuously matches every node, so `searchNodes` returns the
set of all node ids instead of the empty set. -/
theorem claim_C3_amended (nb : NetworkBuilder) (terms fields : List String) :
    ((terms = [] ∨ fields = []) →
      searchNodes nb terms fields SearchLogic.OR = []) ∧
    (fields = [] → terms ≠ [] →
      searchNodes nb terms fields SearchLogic.AND = []) ∧
    (terms = [] →
      searchNodes nb terms fields SearchLogic.AND =
        nb.allNodes.foldl (fun acc n => insertNew acc n.id) []) := by
  refine ⟨?_, ?_, ?_⟩
  · rintro (h | h) <;> subst h
    · apply setFoldIds_of_false
      intro n _
      simp [nodeMatches]
    · apply setFoldIds_of_false
      intro n _
      simp [nodeMatches, searchableValues]
  · rintro rfl hne
    apply setFoldIds_of_false
    intro n _
    simp only [nodeMatches, searchableValues, List.foldl_nil]
    cases terms with
    | nil => exact absurd rfl hne
    | cons t ts => simp
  · rintro rfl
    apply setFoldIds_of_true
    intro n _
    simp [nodeMatches]

/-- Witness for C3 (amended) at a concrete engine: OR with empty terms is
empty, AND with empty fields is empty, AND with empty terms is all ids. -/
theorem claim_C3_amended_witness :
    (searchNodes nbStar [] ["text"] SearchLogic.OR = []) ∧
    (searchNodes nbStar ["x"] [] SearchLogic.AND = []) ∧
    (searchNodes nbStar [] ["text"] SearchLogic.AND =
      nbStar.allNodes.foldl (fun acc n => insertNew acc n.id) []) :=
  ⟨(claim_C3_amended nbStar [] ["text"]).1 (Or.inl rfl),
   (claim_C3_amended nbStar ["x"] []).2.1 rfl (by decide),
   (claim_C3_amended nbStar [] ["text"]).2.2 rfl⟩

/-- Counterexample to C3 as stated: under AND logic with an empty term
list `searchNodes` matches every node instead of returning the empty set. -/
theorem claim_C3_counterexample :
    searchNodes nbStar [] ["text"] SearchLogic.AND ≠ [] := by decide

/-- C7 (amended): for every fixed non-empty term list and every field
list, the AND search result is a subset of the OR search result.  (With an
empty term list the inclusion fails: AND matches everything, OR nothing.) -/
theorem claim_C7_and_subset_or (nb : NetworkBuilder)
    (terms fields : List String) (hne : terms ≠ []) :
    ∀ x ∈ searchNodes nb terms fields SearchLogic.AND,
      x ∈ searchNodes nb terms fields SearchLogic.OR := by
  intro x hx
  unfold searchNodes at hx ⊢
  rw [mem_setFoldIds] at hx ⊢
  obtain ⟨n, hn, hf, hid⟩ := hx
  refine ⟨n, hn, ?_, hid⟩
  unfold nodeMatches at hf ⊢
  cases terms with
  | nil => exact absurd rfl hne
  | cons t ts =>
    simp only [List.map_cons, List.all_cons, Bool.and_eq_true] at hf
    simp only [List.map_cons, List.any_cons, Bool.or_eq_true]
    exact Or.inl hf.1

/-- Witness for C7 (amended) at a concrete engine: the single AND match
"A" is also an OR match. -/
theorem claim_C7_and_subset_or_witness :
    "A" ∈ searchNodes nbStar ["a"] ["name"] SearchLogic.OR :=
  claim_C7_and_subset_or nbStar ["a"] ["name"] (by decide) "A" (by decide)

/-- Counterexample to C7 as stated: with an empty term list the AND result
(everything) is not a subset of the OR result (empty). -/
theorem claim_C7_counterexample :
    "A" ∈ searchNodes nbStar [] ["name"] SearchLogic.AND ∧
    "A" ∉ searchNodes nbStar [] ["name"] SearchLogic.OR := by decide

/-- C2 (amended): with `nodeTypes` empty and at least one of
`titles`/`sections` non-empty, a node is matched iff its `titleMatch` or
its `sectionMatch` passes, where `titleMatch` is automatically true when
`titles` is empty (and otherwise requires node type section/index with a
truthy `title_num` in `titles` or a truthy `title` that parses into
`titles`), and `sectionMatch` is automatically true when `sections` is
empty (and otherwise requires a truthy `section_num` with a requested
section as case-insensitive substring).  In particular, with `titles`
empty and `sections` non-empty every node is matched, not only the
section-predicate passers. -/
theorem claim_C2_amended (nb : NetworkBuilder) (titles : List Int)
    (sections : List String) (x : String)
    (h : ¬(titles = [] ∧ sections = [])) :
    x ∈ filterByAttributes nb [] titles sections ↔
      ∃ n ∈ nb.allNodes,
        (titleMatchB titles n = true ∨ sectionMatchB sections n = true) ∧
        n.id = x := by
  unfold filterByAttributes
  rw [mem_setFoldIds]
  have hcond : ∀ n, filterCond [] titles sections n =
      (titleMatchB titles n || sectionMatchB sections n) := by
    intro n
    have hemp : (titles.isEmpty && sections.isEmpty) = false := by
      cases titles with
      | nil =>
        cases sections with
        | nil => exact absurd ⟨rfl, rfl⟩ h
        | cons a l => rfl
      | cons a l => rfl
    unfold filterCond
    simp [hemp]
  constructor
  · rintro ⟨n, hn, hf, hid⟩
    rw [hcond n, Bool.or_eq_true] at hf
    exact ⟨n, hn, hf, hid⟩
  · rintro ⟨n, hn, hf, hid⟩
    refine ⟨n, hn, ?_, hid⟩
    rw [hcond n, Bool.or_eq_true]
    exact hf

/-- Witness for C2 (amended) at a concrete engine: with empty `titles`
and `sections = ["9"]`, membership of "A" coincides with the amended
condition (which holds because empty `titles` makes `titleMatch` true). -/
theorem claim_C2_amended_witness :
    ¬((([] : List Int) = []) ∧ ((["9"] : List String) = [])) ∧
    ("A" ∈ filterByAttributes nbStar [] [] ["9"] ↔
      ∃ n ∈ nbStar.allNodes,
        (titleMatchB [] n = true ∨ sectionMatchB ["9"] n = true) ∧
        n.id = "A") :=
  ⟨by decide, claim_C2_amended nbStar [] ["9"] "A" (by decide)⟩

/-- Counterexample to C2 as stated: with `titles` empty and `sections`
non-empty, node "A" (which passes neither the claim's title predicate nor
its section predicate — it has no `title_num`, `title` or `section_num`)
is nevertheless matched by `filterByAttributes`. -/
theorem claim_C2_counterexample :
    "A" ∈ filterByAttributes nbStar [] [] ["9"] ∧
    (∀ n ∈ nbStar.allNodes,
      claimTitlePred [] n = false ∧ claimSectionPred ["9"] n = false) := by
  decide

/-- C8: `buildNetwork` reads neither `allowedTitles` nor
`allowedSections` (the title/section filter `filterByAttributes` is never
invoked by the pipeline), so two filter states that agree on every other
field produce identical results, for both search-logic modes and both
ranking modes. -/
theorem claim_C8_title_section_independent (nb : NetworkBuilder)
    (s1 s2 : NetworkBuilderState) (lg : SearchLogic) (md : RankingMode)
    (hterms : s1.searchTerms = s2.searchTerms)
    (hfields : s1.searchFields = s2.searchFields)
    (htypes : s1.allowedNodeTypes = s2.allowedNodeTypes)
    (hets : s1.allowedEdgeTypes = s2.allowedEdgeTypes)
    (hseeds : s1.seedNodeIds = s2.seedNodeIds)
    (hdepth : s1.expansionDepth = s2.expansionDepth)
    (hmaxn : s1.maxNodesPerExpansion = s2.maxNodesPerExpansion)
    (hmax : s1.maxTotalNodes = s2.maxTotalNodes) :
    buildNetworkFull nb s1 lg md = buildNetworkFull nb s2 lg md := by
  obtain ⟨t1, f1, nt1, et1, ti1, se1, sd1, d1, mn1, mt1⟩ := s1
  obtain ⟨t2, f2, nt2, et2, ti2, se2, sd2, d2, mn2, mt2⟩ := s2
  simp only at hterms hfields htypes hets hseeds hdepth hmaxn hmax
  subst hterms hfields htypes hets hseeds hdepth hmaxn hmax
  rfl

/-- Witness for C8 at a concrete engine: states differing only in
`allowedTitles` and `allowedSections` give equal results. -/
theorem claim_C8_title_section_independent_witness :
    buildNetworkFull nbStar
        { plainState 2 with allowedTitles := [1], allowedSections := ["a"] }
        SearchLogic.OR RankingMode.global =
      buildNetworkFull nbStar (plainState 2) SearchLogic.OR
        RankingMode.global :=
  claim_C8_title_section_independent nbStar
    { plainState 2 with allowedTitles := [1], allowedSections := ["a"] }
    (plainState 2) SearchLogic.OR RankingMode.global
    rfl rfl rfl rfl rfl rfl rfl rfl

theorem hasKey_buildNodeMap_iff {ns : List GraphNode} {S : List String}
    {k : String} :
    mapHasKey (buildNodeMap ns S) k = true ↔
      ∃ n ∈ ns, n.id = k ∧ k ∈ S := by
  rw [mapHasKey_iff]
  constructor
  · rintro ⟨p, hp, hk⟩
    obtain ⟨hmem, hid, hS⟩ := entry_buildNodeMap p hp
    exact ⟨p.2, hmem, hid.trans hk, hk ▸ hS⟩
  · rintro ⟨n, hn, hid, hS⟩
    have hkeys : k ∈ (buildNodeMap ns S).map Prod.fst := by
      rw [keys_buildNodeMap, mem_setFoldIds]
      exact ⟨n, hn, by simp [hid, hS], hid⟩
    obtain ⟨p, hp, hk⟩ := List.mem_map.mp hkeys
    exact ⟨p, hp, hk⟩

theorem mem_candidateLinksOf {nb : NetworkBuilder} {s : NetworkBuilderState}
    {lg : SearchLogic} {l : GraphLink} :
    l ∈ candidateLinksOf nb s lg ↔
      l ∈ nb.allLinks ∧
      (s.allowedEdgeTypes.isEmpty ||
        s.allowedEdgeTypes.contains l.edge_type) = true ∧
      mapHasKey (buildNodeMap nb.allNodes (candidateIdsOf nb s lg))
        l.source = true ∧
      mapHasKey (buildNodeMap nb.allNodes (candidateIdsOf nb s lg))
        l.target = true := by
  unfold candidateLinksOf
  rw [List.mem_filter]
  simp [Bool.and_eq_true, and_assoc]

theorem mem_connectedIdsOf {nb : NetworkBuilder} {s : NetworkBuilderState}
    {lg : SearchLogic} {x : String} :
    x ∈ connectedIdsOf nb s lg ↔
      (∃ n ∈ nb.allNodes, n.id = x ∧ x ∈ candidateIdsOf nb s lg) ∧
      x ∈ endpointSet (candidateLinksOf nb s lg) := by
  unfold connectedIdsOf
  rw [mem_jsSetOf]
  constructor
  · intro hx
    obtain ⟨n, hn, hid⟩ := List.mem_map.mp hx
    rw [List.mem_filter] at hn
    obtain ⟨hval, hw⟩ := hn
    obtain ⟨p, hp, hpn⟩ := List.mem_map.mp hval
    obtain ⟨hmem, hid2, hS⟩ := entry_buildNodeMap p hp
    subst hpn
    subst hid
    refine ⟨⟨p.2, hmem, rfl, hid2 ▸ hS⟩, ?_⟩
    simpa using hw
  · rintro ⟨⟨n, hn, hid, hcand⟩, hep⟩
    have hkey : mapHasKey (buildNodeMap nb.allNodes (candidateIdsOf nb s lg))
        x = true :=
      hasKey_buildNodeMap_iff.mpr ⟨n, hn, hid, hcand⟩
    rw [mapHasKey_iff] at hkey
    obtain ⟨p, hp, hk⟩ := hkey
    obtain ⟨hmem, hid2, hS⟩ := entry_buildNodeMap p hp
    refine List.mem_map.mpr ⟨p.2, ?_, hid2.trans hk⟩
    rw [List.mem_filter]
    refine ⟨List.mem_map.mpr ⟨p, hp, rfl⟩, ?_⟩
    simp only [decide_eq_true_eq]
    rw [hid2, hk]
    exact hep

theorem nodup_connectedIdsOf {nb : NetworkBuilder} {s : NetworkBuilderState}
    {lg : SearchLogic} : (connectedIdsOf nb s lg).Nodup :=
  nodup_jsSetOf

theorem connected_has_candidate_link {nb : NetworkBuilder}
    {s : NetworkBuilderState} {lg : SearchLogic} {x : String}
    (hx : x ∈ connectedIdsOf nb s lg) :
    ∃ l ∈ candidateLinksOf nb s lg, l.source = x ∨ l.target = x :=
  mem_endpointSet.mp (mem_connectedIdsOf.mp hx).2

theorem endpoint_mem_connected {nb : NetworkBuilder} {s : NetworkBuilderState}
    {lg : SearchLogic} {l : GraphLink} (hl : l ∈ candidateLinksOf nb s lg)
    {y : String} (hy : l.source = y ∨ l.target = y) :
    y ∈ connectedIdsOf nb s lg := by
  obtain ⟨_, _, hks, hkt⟩ := mem_candidateLinksOf.mp hl
  refine mem_connectedIdsOf.mpr ⟨?_, mem_endpointSet.mpr ⟨l, hl, hy⟩⟩
  rcases hy with hy | hy
  · obtain ⟨n, hn, hid, hS⟩ := hasKey_buildNodeMap_iff.mp hks
    exact ⟨n, hn, hid.trans hy, hy ▸ hS⟩
  · obtain ⟨n, hn, hid, hS⟩ := hasKey_buildNodeMap_iff.mp hkt
    exact ⟨n, hn, hid.trans hy, hy ▸ hS⟩

theorem finalIds_subset_connected {nb : NetworkBuilder}
    {s : NetworkBuilderState} {lg : SearchLogic} {md : RankingMode}
    {x : String} (hx : x ∈ finalIdsOf nb s lg md) :
    x ∈ connectedIdsOf nb s lg := by
  unfold finalIdsOf at hx
  split at hx
  case isTrue h =>
    cases md with
    | subgraph =>
      simp only at hx
      have h1 := List.mem_of_mem_take hx
      have h2 := ((perm_sortDesc _ _).mem_iff).mp h1
      exact (List.mem_filter.mp h2).1
    | global =>
      unfold selectTopNodesByDegree at hx
      rw [foldl_jsMapSet_of_nodup _ nodup_connectedIdsOf] at hx
      obtain ⟨p, hp, hk⟩ := List.mem_map.mp hx
      have h1 := List.mem_of_mem_take hp
      have h2 := ((perm_sortDesc _ _).mem_iff).mp h1
      obtain ⟨id0, hid0, he⟩ := List.mem_map.mp h2
      rw [← hk, ← he]
      exact hid0
  case isFalse h => exact hx

theorem nodup_finalIds {nb : NetworkBuilder} {s : NetworkBuilderState}
    {lg : SearchLogic} {md : RankingMode} : (finalIdsOf nb s lg md).Nodup := by
  unfold finalIdsOf
  by_cases h : (connectedIdsOf nb s lg).length > s.maxTotalNodes
  · rw [if_pos h]
    cases md with
    | subgraph =>
      refine List.Nodup.sublist (List.take_sublist _ _) ?_
      refine ((perm_sortDesc _ _).nodup_iff).mpr ?_
      exact List.Nodup.filter _ nodup_connectedIdsOf
    | global =>
      unfold selectTopNodesByDegree
      rw [foldl_jsMapSet_of_nodup _ nodup_connectedIdsOf]
      rw [List.map_take]
      refine List.Nodup.sublist (List.take_sublist _ _) ?_
      refine ((perm_sortDesc _ _).map Prod.fst).nodup_iff.mpr ?_
      rw [List.map_map]
      have heq : (Prod.fst ∘ fun id =>
          (id, (adjacency nb.allLinks id).length)) = fun id : String => id :=
        rfl
      rw [heq, List.map_id']
      exact nodup_connectedIdsOf
  · rw [if_neg h]
    exact nodup_connectedIdsOf

theorem length_finalIds_of_truncated {nb : NetworkBuilder}
    {s : NetworkBuilderState} {lg : SearchLogic} {md : RankingMode}
    (h : (connectedIdsOf nb s lg).length > s.maxTotalNodes) :
    (finalIdsOf nb s lg md).length = s.maxTotalNodes := by
  unfold finalIdsOf
  rw [if_pos h]
  cases md with
  | subgraph =>
    simp only
    have hfil : (connectedIdsOf nb s lg).filter
        (fun id => mapHasKey (linkDegrees (candidateLinksOf nb s lg)) id) =
          connectedIdsOf nb s lg := by
      rw [List.filter_eq_self]
      intro x hx
      rw [hasKey_linkDegrees]
      exact connected_has_candidate_link hx
    rw [hfil, List.length_take, length_sortDesc]
    omega
  | global =>
    unfold selectTopNodesByDegree
    rw [foldl_jsMapSet_of_nodup _ nodup_connectedIdsOf]
    rw [List.length_map, List.length_take, length_sortDesc, List.length_map]
    omega

theorem buildNodeMap_nil_right (ns : List GraphNode) :
    buildNodeMap ns [] = [] := by
  unfold buildNodeMap
  suffices h : ∀ m : List (String × GraphNode),
      ns.foldl (fun m n => if n.id ∈ ([] : List String) then jsMapSet m n.id n
        else m) m = m by
    exact h []
  induction ns with
  | nil => intro m; rfl
  | cons a t ih =>
    intro m
    simp only [List.foldl_cons, List.not_mem_nil, if_false]
    exact ih m

theorem candidateIdsOf_early {nb : NetworkBuilder} {s : NetworkBuilderState}
    {lg : SearchLogic} (h1 : searchActive s = true)
    (h2 : (seedIdsOf nb s lg).isEmpty = true) :
    candidateIdsOf nb s lg = [] := by
  have hpre : preFilterCandidates nb s lg = [] := by
    unfold preFilterCandidates
    rw [if_pos h1, if_pos h2]
  unfold candidateIdsOf
  rw [hpre]
  split <;> rfl

theorem connectedIdsOf_early {nb : NetworkBuilder} {s : NetworkBuilderState}
    {lg : SearchLogic}
    (h : (searchActive s && (seedIdsOf nb s lg).isEmpty) = true) :
    connectedIdsOf nb s lg = [] := by
  rw [Bool.and_eq_true] at h
  unfold connectedIdsOf
  rw [candidateIdsOf_early h.1 h.2, buildNodeMap_nil_right]
  rfl

theorem length_buildNodeMap_of_nodup {ns : List GraphNode} {S : List String}
    (hnd : S.Nodup) (hsub : ∀ x ∈ S, ∃ n ∈ ns, n.id = x) :
    (buildNodeMap ns S).length = S.length := by
  have hlen : (buildNodeMap ns S).length =
      (setFoldIds (fun n => decide (n.id ∈ S)) ns).length := by
    rw [← keys_buildNodeMap, List.length_map]
  have hperm : List.Perm (setFoldIds (fun n => decide (n.id ∈ S)) ns) S := by
    rw [List.perm_ext_iff_of_nodup nodup_setFoldIds hnd]
    intro a
    rw [mem_setFoldIds]
    constructor
    · rintro ⟨n, hn, hf, hid⟩
      rw [← hid]
      simpa using hf
    · intro ha
      obtain ⟨n, hn, hid⟩ := hsub a ha
      exact ⟨n, hn, by simp [hid, ha], hid⟩
  rw [hlen, hperm.length_eq]

theorem finalIds_subset_allIds {nb : NetworkBuilder} {s : NetworkBuilderState}
    {lg : SearchLogic} {md : RankingMode} :
    ∀ x ∈ finalIdsOf nb s lg md, ∃ n ∈ nb.allNodes, n.id = x := by
  intro x hx
  obtain ⟨⟨n, hn, hid, _⟩, _⟩ :=
    mem_connectedIdsOf.mp (finalIds_subset_connected hx)
  exact ⟨n, hn, hid⟩

theorem length_finalNodeRecords {nb : NetworkBuilder}
    {s : NetworkBuilderState} {lg : SearchLogic} {md : RankingMode} :
    (finalNodeRecords nb s lg md).length = (finalIdsOf nb s lg md).length := by
  unfold finalNodeRecords
  rw [List.length_map]
  exact length_buildNodeMap_of_nodup nodup_finalIds finalIds_subset_allIds

/-- C5: `truncated` is true exactly when `matchedCount` exceeds
`maxTotalNodes`; `matchedCount` is the size of the connected candidate set
before truncation; and whenever `truncated` is true the returned node list
has exactly `min maxTotalNodes matchedCount` nodes, under both ranking
modes. -/
theorem claim_C5_truncation (nb : NetworkBuilder) (s : NetworkBuilderState)
    (lg : SearchLogic) (md : RankingMode) :
    ((buildNetworkFull nb s lg md).graph.truncated =
      decide ((buildNetworkFull nb s lg md).graph.matchedCount >
        s.maxTotalNodes)) ∧
    ((buildNetworkFull nb s lg md).graph.matchedCount =
      (connectedIdsOf nb s lg).length) ∧
    ((buildNetworkFull nb s lg md).graph.truncated = true →
      (buildNetworkFull nb s lg md).graph.nodes.length =
        min s.maxTotalNodes
          (buildNetworkFull nb s lg md).graph.matchedCount) := by
  unfold buildNetworkFull
  split
  case isTrue h =>
    refine ⟨by simp, ?_, by simp⟩
    rw [connectedIdsOf_early h]
    rfl
  case isFalse h =>
    refine ⟨rfl, rfl, ?_⟩
    intro htr
    simp only [decide_eq_true_eq] at htr
    simp only [List.length_map]
    rw [length_finalNodeRecords, length_finalIds_of_truncated htr]
    omega

/-- Witness for C5 at a concrete truncated query: the cap of 2 is reached
(matchedCount 6) and exactly 2 nodes are returned. -/
theorem claim_C5_truncation_witness :
    ((buildNetworkFull nbStar (plainState 2) SearchLogic.OR
        RankingMode.global).graph.truncated = true) ∧
    ((buildNetworkFull nbStar (plainState 2) SearchLogic.OR
        RankingMode.global).graph.nodes.length =
      min (plainState 2).maxTotalNodes
        (buildNetworkFull nbStar (plainState 2) SearchLogic.OR
          RankingMode.global).graph.matchedCount) :=
  ⟨by decide,
   (claim_C5_truncation nbStar (plainState 2) SearchLogic.OR
     RankingMode.global).2.2 (by decide)⟩

theorem sameExceptDisplay_refl (a : GraphNode) : sameExceptDisplay a a :=
  ⟨rfl, rfl, rfl, rfl, rfl, rfl, rfl, rfl, rfl, rfl, rfl, rfl, rfl, rfl⟩

theorem sameExceptDisplay_applyDisplay (d : List (String × Nat)) (mx : Nat)
    (n : GraphNode) : sameExceptDisplay n (applyDisplay d mx n) :=
  ⟨rfl, rfl, rfl, rfl, rfl, rfl, rfl, rfl, rfl, rfl, rfl, rfl, rfl, rfl⟩

theorem forall₂_sed_refl (l : List GraphNode) :
    List.Forall₂ sameExceptDisplay l l := by
  induction l with
  | nil => exact List.Forall₂.nil
  | cons a t ih => exact List.Forall₂.cons (sameExceptDisplay_refl a) ih

theorem forall₂_updateBase (d : List (String × Nat)) (mx : Nat)
    (ids : List String) :
    ∀ l : List GraphNode,
      List.Forall₂ sameExceptDisplay l (updateBase d mx ids l) := by
  intro l
  induction l with
  | nil => exact List.Forall₂.nil
  | cons a t ih =>
    unfold updateBase
    refine List.Forall₂.cons ?_ ih
    split
    · exact sameExceptDisplay_applyDisplay d mx a
    · exact sameExceptDisplay_refl a

/-- C1 (amended): `buildNetwork` does not change the number or order of
the base node records and leaves every field except the four display
outputs `val`, `totalVal`, `color`, `baseColor` untouched; but it does
write those display fields in place on the base records selected into the
final view (the returned `FilteredGraph` aliases those shared records), so
it is not a pure query of an immutable base graph. -/
theorem claim_C1_amended (nb : NetworkBuilder) (s : NetworkBuilderState)
    (lg : SearchLogic) (md : RankingMode) :
    List.Forall₂ sameExceptDisplay nb.allNodes
      (buildNetworkFull nb s lg md).postNodes := by
  unfold buildNetworkFull
  split
  · exact forall₂_sed_refl nb.allNodes
  · exact forall₂_updateBase _ _ _ nb.allNodes

/-- Counterexample to C1 as stated: a concrete query writes the `val`
(and display) fields of a base node record, so the base graph is mutated
and the node list after the call differs from the one before. -/
theorem claim_C1_counterexample :
    ((buildNetworkFull nbStar (plainState 2) SearchLogic.OR
        RankingMode.global).postNodes ≠ nbStar.allNodes) ∧
    (∃ nd ∈ (buildNetworkFull nbStar (plainState 2) SearchLogic.OR
        RankingMode.global).postNodes,
      ∃ n ∈ nbStar.allNodes, nd.id = n.id ∧ nd.val ≠ n.val) := by
  decide

/-- The display-annotated record of node "A" in the uncapped `nbStar`
query (degree 1, maximum degree 3). -/
def nodeA10 : GraphNode :=
  { id := "A", name := "A", node_type := "section",
    val := JsVal.num 1, totalVal := JsVal.num 1,
    color := JsVal.str "rgb(125, 118, 182)",
    baseColor := JsVal.str "rgb(125, 118, 182)" }

/-- The display-annotated record of node "A" in the capped `nbStar` query
(no surviving link, so `val` is 1 and the colour sits at `t = 1`). -/
def nodeA2 : GraphNode :=
  { id := "A", name := "A", node_type := "section",
    val := JsVal.num 1, totalVal := JsVal.num 1,
    color := JsVal.str "rgb(65, 55, 143)",
    baseColor := JsVal.str "rgb(65, 55, 143)" }

/-- C4 (amended): when the result is not truncated, every node in the
returned node list is an endpoint of at least one returned link.  (When
truncation occurs, the degree-ranked selection can strand a kept node
whose every retained link lost its other endpoint, so the claim fails in
general.) -/
theorem claim_C4_amended (nb : NetworkBuilder) (s : NetworkBuilderState)
    (lg : SearchLogic) (md : RankingMode)
    (h : (buildNetworkFull nb s lg md).graph.truncated = false) :
    ∀ nd ∈ (buildNetworkFull nb s lg md).graph.nodes,
      ∃ l ∈ (buildNetworkFull nb s lg md).graph.links,
        l.source = nd.id ∨ l.target = nd.id := by
  revert h
  unfold buildNetworkFull
  split
  · intro _ nd hnd
    simp at hnd
  · intro htr nd hnd
    simp only [decide_eq_false_iff_not] at htr
    have hfin : finalIdsOf nb s lg md = connectedIdsOf nb s lg := by
      unfold finalIdsOf
      rw [if_neg htr]
    obtain ⟨n0, hn0, he⟩ := List.mem_map.mp hnd
    unfold finalNodeRecords at hn0
    obtain ⟨p, hp, hpn⟩ := List.mem_map.mp hn0
    obtain ⟨hmem, hid, hS⟩ := entry_buildNodeMap p hp
    have hndid : nd.id = p.1 := by
      rw [← he, ← hpn] at *
      exact hid
    rw [hfin] at hS
    obtain ⟨l, hl, hinc⟩ := connected_has_candidate_link hS
    have hkey : ∀ y, y ∈ connectedIdsOf nb s lg →
        mapHasKey (buildNodeMap nb.allNodes (finalIdsOf nb s lg md)) y =
          true := by
      intro y hy
      obtain ⟨⟨n, hn, hid2, _⟩, _⟩ := mem_connectedIdsOf.mp hy
      refine hasKey_buildNodeMap_iff.mpr ⟨n, hn, hid2, ?_⟩
      rw [hfin]
      exact hy
    refine ⟨l, ?_, ?_⟩
    · unfold finalLinksOf
      rw [List.mem_filter]
      refine ⟨hl, ?_⟩
      rw [hkey l.source (endpoint_mem_connected hl (Or.inl rfl)),
        hkey l.target (endpoint_mem_connected hl (Or.inr rfl))]
      rfl
    · rcases hinc with hi | hi
      · exact Or.inl (hi.trans hndid.symm)
      · exact Or.inr (hi.trans hndid.symm)

/-- Witness for C4 (amended) at a concrete untruncated query: node "A"
keeps its link. -/
theorem claim_C4_amended_witness :
    ∃ l ∈ (buildNetworkFull nbStar (plainState 10) SearchLogic.OR
        RankingMode.global).graph.links,
      l.source = nodeA10.id ∨ l.target = nodeA10.id :=
  claim_C4_amended nbStar (plainState 10) SearchLogic.OR RankingMode.global
    (by decide) nodeA10 (by decide)

/-- Counterexample to C4 as stated: a truncated query returns nodes "A"
and "C" but an empty link list, so a returned node has zero returned
links while the returned node list is non-empty. -/
theorem claim_C4_counterexample :
    ((buildNetworkFull nbStar (plainState 2) SearchLogic.OR
        RankingMode.global).graph.nodes ≠ []) ∧
    (∃ nd ∈ (buildNetworkFull nbStar (plainState 2) SearchLogic.OR
        RankingMode.global).graph.nodes,
      ∀ l ∈ (buildNetworkFull nbStar (plainState 2) SearchLogic.OR
          RankingMode.global).graph.links,
        l.source ≠ nd.id ∧ l.target ≠ nd.id) := by
  decide

/-- C6 (amended): every link returned by `buildNetwork` has both
endpoints among the base node ids, and every returned node corresponds to
a base node.  (The constructor itself performs no endpoint validation:
dangling endpoints are keyed into the adjacency index and dangling links
can influence global-degree ranking — see the counterexample.) -/
theorem claim_C6_amended (nb : NetworkBuilder) (s : NetworkBuilderState)
    (lg : SearchLogic) (md : RankingMode) :
    (∀ l ∈ (buildNetworkFull nb s lg md).graph.links,
      (∃ n ∈ nb.allNodes, n.id = l.source) ∧
      (∃ n ∈ nb.allNodes, n.id = l.target)) ∧
    (∀ nd ∈ (buildNetworkFull nb s lg md).graph.nodes,
      ∃ n ∈ nb.allNodes, n.id = nd.id) := by
  unfold buildNetworkFull
  split
  · constructor
    · intro l hl
      simp at hl
    · intro nd hnd
      simp at hnd
  · constructor
    · intro l hl
      unfold finalLinksOf at hl
      rw [List.mem_filter] at hl
      obtain ⟨_, _, hks, hkt⟩ := mem_candidateLinksOf.mp hl.1
      obtain ⟨n1, hn1, hid1, _⟩ := hasKey_buildNodeMap_iff.mp hks
      obtain ⟨n2, hn2, hid2, _⟩ := hasKey_buildNodeMap_iff.mp hkt
      exact ⟨⟨n1, hn1, hid1⟩, ⟨n2, hn2, hid2⟩⟩
    · intro nd hnd
      obtain ⟨n0, hn0, he⟩ := List.mem_map.mp hnd
      unfold finalNodeRecords at hn0
      obtain ⟨p, hp, hpn⟩ := List.mem_map.mp hn0
      obtain ⟨hmem, hid, _⟩ := entry_buildNodeMap p hp
      refine ⟨p.2, hmem, ?_⟩
      rw [← he, ← hpn]
      rfl

/-- Witness for C6 (amended): the one returned link of the dangling-link
fixture has both endpoints among the base nodes. -/
theorem claim_C6_amended_witness :
    (∃ n ∈ nbPathDangling.allNodes, n.id = (mkLink "B" "C").source) ∧
    (∃ n ∈ nbPathDangling.allNodes, n.id = (mkLink "B" "C").target) :=
  (claim_C6_amended nbPathDangling (plainState 2) SearchLogic.OR
    RankingMode.global).1 (mkLink "B" "C") (by decide)

/-- Counterexample to C6 as stated: the constructor keys the dangling
endpoint "Z" into the adjacency index even though no base node has that
id, and adding the dangling link C-Z changes the result of a
global-ranking query on an otherwise identical engine. -/
theorem claim_C6_counterexample :
    ("Z" ∈ adjacencyKeys nbPathDangling) ∧
    (∀ n ∈ nbPathDangling.allNodes, n.id ≠ "Z") ∧
    (nbPath.allNodes = nbPathDangling.allNodes) ∧
    (nbPathDangling.allLinks = nbPath.allLinks ++ [mkLink "C" "Z"]) ∧
    ((buildNetworkFull nbPath (plainState 2) SearchLogic.OR
        RankingMode.global).graph ≠
      (buildNetworkFull nbPathDangling (plainState 2) SearchLogic.OR
        RankingMode.global).graph) := by
  decide

/-- Value `val` as the spec describes it: the node's local degree in the final
link set, floored at 1 (`nodeDegree.get(id) || 1`). -/
def specVal (ls : List GraphLink) (id : String) : Nat :=
  if specLocalDeg ls id = 0 then 1 else specLocalDeg ls id

theorem valOfId_linkDegrees {ls : List GraphLink} {id : String} :
    valOfId (linkDegrees ls) id = specVal ls id := by
  unfold valOfId specVal
  have h := @linkDegrees_getD ls id
  cases hm : mapGet (linkDegrees ls) id with
  | none =>
    rw [hm] at h
    simp only [Option.getD_none] at h
    rw [← h]
    rfl
  | some k =>
    rw [hm] at h
    simp only [Option.getD_some] at h
    rw [← h]

theorem valOfId_finalDegMap {nb : NetworkBuilder} {s : NetworkBuilderState}
    {lg : SearchLogic} {md : RankingMode} {id : String} :
    valOfId (finalDegMap nb s lg md) id =
      specVal (finalLinksOf nb s lg md) id :=
  valOfId_linkDegrees

theorem foldl_max_init (l : List Nat) :
    ∀ a : Nat, l.foldl max a = max a (l.foldl max 0) := by
  induction l with
  | nil => intro a; simp
  | cons x t ih =>
    intro a
    simp only [List.foldl_cons]
    rw [ih (max a x), ih (max 0 x)]
    omega

theorem foldl_max_if01 (ds : List Nat) :
    max 1 ((ds.map (fun d => if d = 0 then 1 else d)).foldl max 0) =
      max 1 (ds.foldl max 0) := by
  induction ds with
  | nil => rfl
  | cons d t ih =>
    simp only [List.map_cons, List.foldl_cons]
    rw [foldl_max_init (t.map (fun d => if d = 0 then 1 else d)),
      foldl_max_init t]
    by_cases hd : d = 0 <;> simp only [hd, if_true, if_false] <;> omega

theorem maxValOf_records {ls : List GraphLink} {records : List GraphNode} :
    maxValOf (linkDegrees ls) records = max 1 (specMaxDeg records ls) := by
  unfold maxValOf specMaxDeg
  have hmap : records.map (fun n => valOfId (linkDegrees ls) n.id) =
      (records.map (fun n => specLocalDeg ls n.id)).map
        (fun d => if d = 0 then 1 else d) := by
    rw [List.map_map]
    apply List.map_congr_left
    intro n _
    exact valOfId_linkDegrees
  rw [hmap, foldl_max_init, foldl_max_if01]

theorem specMaxDeg_map_applyDisplay {d : List (String × Nat)} {mx : Nat}
    {ls : List GraphLink} {records : List GraphNode} :
    specMaxDeg (records.map (applyDisplay d mx)) ls = specMaxDeg records ls := by
  unfold specMaxDeg
  rw [List.map_map]
  rfl

/-- C10 (amended): for every node in the final set, the stored display
size value (`val`) and its pre-filter mirror (`totalVal`) equal the node's
local degree within the final link set when that degree is positive, and 1
when the node has no incident final link; and the stored colour (and base
resting colour) is the type-specific anchor interpolation evaluated at
`t = val / max(1, maximum local degree over the final nodes)` with each
channel rounded to the nearest integer.  (The claim's `val = degree` and
`t = degree / …` hold verbatim only for nodes of positive final degree.) -/
theorem claim_C10_display (nb : NetworkBuilder) (s : NetworkBuilderState)
    (lg : SearchLogic) (md : RankingMode) :
    ∀ nd ∈ (buildNetworkFull nb s lg md).graph.nodes,
      nd.val = JsVal.num
        ((specVal (buildNetworkFull nb s lg md).graph.links nd.id : Nat) :
          Int) ∧
      nd.totalVal = nd.val ∧
      nd.color = JsVal.str (colorFor nd.node_type
        (specVal (buildNetworkFull nb s lg md).graph.links nd.id)
        (max 1 (specMaxDeg (buildNetworkFull nb s lg md).graph.nodes
          (buildNetworkFull nb s lg md).graph.links))) ∧
      nd.baseColor = nd.color := by
  unfold buildNetworkFull
  split
  · intro nd hnd
    simp at hnd
  · intro nd hnd
    dsimp only at hnd ⊢
    obtain ⟨n0, hn0, he⟩ := List.mem_map.mp hnd
    have hmx : finalMaxVal nb s lg md =
        max 1 (specMaxDeg ((finalNodeRecords nb s lg md).map
          (applyDisplay (finalDegMap nb s lg md) (finalMaxVal nb s lg md)))
          (finalLinksOf nb s lg md)) := by
      rw [specMaxDeg_map_applyDisplay]
      unfold finalMaxVal finalDegMap
      exact maxValOf_records
    subst he
    have hid : (applyDisplay (finalDegMap nb s lg md) (finalMaxVal nb s lg md)
        n0).id = n0.id := rfl
    have hval : (applyDisplay (finalDegMap nb s lg md)
        (finalMaxVal nb s lg md) n0).val =
      JsVal.num ((valOfId (finalDegMap nb s lg md) n0.id : Nat) : Int) := rfl
    have hcol : (applyDisplay (finalDegMap nb s lg md)
        (finalMaxVal nb s lg md) n0).color =
      JsVal.str (colorFor n0.node_type (valOfId (finalDegMap nb s lg md) n0.id)
        (finalMaxVal nb s lg md)) := rfl
    have htype : (applyDisplay (finalDegMap nb s lg md)
        (finalMaxVal nb s lg md) n0).node_type = n0.node_type := rfl
    refine ⟨?_, rfl, ?_, rfl⟩
    · rw [hval, hid, valOfId_finalDegMap]
    · rw [hcol, hid, htype, valOfId_finalDegMap, ← hmx]

/-- Witness for C10 at a concrete truncated query: the annotated record of
node "A" (stranded by truncation, so `val = 1` at local degree 0). -/
theorem claim_C10_display_witness :
    nodeA2 ∈ (buildNetworkFull nbStar (plainState 2) SearchLogic.OR
      RankingMode.global).graph.nodes ∧
    (nodeA2.val = JsVal.num
      ((specVal (buildNetworkFull nbStar (plainState 2) SearchLogic.OR
          RankingMode.global).graph.links nodeA2.id : Nat) : Int) ∧
     nodeA2.totalVal = nodeA2.val ∧
     nodeA2.color = JsVal.str (colorFor nodeA2.node_type
       (specVal (buildNetworkFull nbStar (plainState 2) SearchLogic.OR
         RankingMode.global).graph.links nodeA2.id)
       (max 1 (specMaxDeg (buildNetworkFull nbStar (plainState 2)
           SearchLogic.OR RankingMode.global).graph.nodes
         (buildNetworkFull nbStar (plainState 2) SearchLogic.OR
           RankingMode.global).graph.links))) ∧
     nodeA2.baseColor = nodeA2.color) :=
  ⟨by decide,
   claim_C10_display nbStar (plainState 2) SearchLogic.OR RankingMode.global
     nodeA2 (by decide)⟩

/-- Counterexample to C10 as stated: in a truncated query node "A" is
returned with zero incident final links, so its stored `val` (1) differs
from its local degree (0) — the claim's "display size value equals local
degree" fails. -/
theorem claim_C10_counterexample :
    ∃ nd ∈ (buildNetworkFull nbStar (plainState 2) SearchLogic.OR
        RankingMode.global).graph.nodes,
      specLocalDeg (buildNetworkFull nbStar (plainState 2) SearchLogic.OR
        RankingMode.global).graph.links nd.id = 0 ∧
      nd.val ≠ JsVal.num ((specLocalDeg (buildNetworkFull nbStar
        (plainState 2) SearchLogic.OR RankingMode.global).graph.links nd.id :
          Nat) : Int) := by
  decide

end NetworkExplorer


